import Mathlib

/-!
# Packed syntax tree builder (`src/src/runtime/ptree.c`)

A shallow embedding of `ts_ptree_build__` / `ts_ptree_build_` / `ts_ptree_build`
and of the `PNODE_*` word constructors, followed by theorems about the packed
array they produce.

Conventions of the embedding
* `uint16_t`, `uint32_t` and `uint64_t` values are natural numbers; every
  place where the C code narrows a value (the `uint32_t` sums of byte positions,
  the `uint32_t length` of a rule span, the `uint32_t child_index`, the
  `&`-masks and the `PNode` cast of the word constructors) is written out as an
  explicit `%` or `&&&`.  The cursor `size_t *index` counts slots of an
  allocated array and is a natural number without wrap-around.
* The destination buffer `PNode *root_node` is a list of words.  A store
  through an index outside the buffer makes the whole walk return `none`.
* The cursor and the buffer travel together in `PState`, with a log of the
  indices stored to; the log is not program state, it records which slots the
  walk has written.
-/

namespace PTreeModel

/-! ## Collaborators that live outside `ptree.c` -/

/-- Modelled from the spec: `Length` of `runtime/length.h`, reduced to the byte
component, the only component `ptree.c` reads (`start_pos.bytes`,
`size.bytes`, `padding.bytes`). -/
structure Length where
  bytes : Nat
deriving DecidableEq, Repr

/-- Modelled from the spec: `length_zero()` of `runtime/length.h`. -/
def length_zero : Length := ⟨0⟩

/-- Modelled from the spec: `length_add` of `runtime/length.h`; the byte
components are `uint32_t` and are added with wrap-around. -/
def length_add (a b : Length) : Length := ⟨(a.bytes + b.bytes) % 2 ^ 32⟩

/-- Modelled from the spec: the attributes of a source-tree node
(`runtime/subtree.h`) that the builder reads: `ts_subtree_symbol`,
`ts_subtree_padding`, `ts_subtree_size` (and `self.ptr->size`),
`ts_subtree_visible`, `ts_subtree_named`, `ts_subtree_extra`,
`ts_subtree_missing`, `ts_subtree_is_error` and `self.ptr->alias_sequence_id`.
The specification lists them as independent attributes of a node. -/
structure SubtreeData where
  symbol : Nat
  padding : Length
  size : Length
  visible : Bool
  named : Bool
  extra : Bool
  is_missing : Bool
  is_error : Bool
  alias_sequence_id : Nat
deriving DecidableEq, Repr

/-- Modelled from the spec: `Subtree` of `runtime/subtree.h`.  `null` is the
subtree whose `ptr` is `NULL`; `node d cs` is a subtree with attributes `d` and
ordered children `cs` (`child_count = cs.length`). -/
inductive Subtree where
  | null : Subtree
  | node (d : SubtreeData) (children : List Subtree) : Subtree
deriving Repr

/-- Modelled from the spec: the language collaborator (`runtime/language.h`,
`tree_sitter/parser.h`).  `alias_sequence id` is
`ts_language_alias_sequence(language, id)` (`none` for a `NULL` table row,
otherwise the row indexed by child ordinal), `symbol_named s` is
`ts_language_symbol_metadata(language, s).named`, and `sym_end` is the reserved
end-of-input symbol `ts_builtin_sym_end`. -/
structure TSLanguage where
  alias_sequence : Nat → Option (Nat → Nat)
  symbol_named : Nat → Bool
  sym_end : Nat

/-- Modelled from the spec: the two members of `TSTree` (`runtime/tree.h`)
that `ts_ptree_build_` reads. -/
structure TSTree where
  root : Subtree
  language : TSLanguage

/-- Modelled from the spec: `ts_subtree_extra` of `runtime/subtree.h`. -/
def ts_subtree_extra : Subtree → Bool
  | .null => false
  | .node d _ => d.extra

/-- Modelled from the spec: `ts_subtree_size` of `runtime/subtree.h`. -/
def ts_subtree_size : Subtree → Length
  | .null => length_zero
  | .node d _ => d.size

/-- Modelled from the spec: `ts_subtree_padding` of `runtime/subtree.h`. -/
def ts_subtree_padding : Subtree → Length
  | .null => length_zero
  | .node d _ => d.padding

/-! ## Constants and word constructors of `ptree.c` -/

def PNODE_START : Nat := 0
def PNODE_END : Nat := 1

def PNODE_TOKEN_NODE_TYPE : Nat := 0
def PNODE_RULE_NODE_TYPE : Nat := 1
def PNODE_LIST_NODE_TYPE : Nat := 2
def PNODE_ERROR_NODE_TYPE : Nat := 3

def PNODE_ERROR_GENERAL : Nat := 0
def PNODE_ERROR_MISSING : Nat := 1
def PNODE_ERROR_UNEXPECTED : Nat := 2

def TT_BAD_TOKEN : Nat := 255

/-- The word stored by `PNODE_START_RULE_NODE(node, index, type)`. -/
def PNODE_START_RULE_NODE (type : Nat) : Nat :=
  (((type &&& 0xFF) <<< 4) ||| ((PNODE_START &&& 0x1) <<< 3) |||
    (PNODE_RULE_NODE_TYPE &&& 0x7)) % 2 ^ 64

/-- The word stored by `PNODE_START_RULE_NODE_LENGTH(node, index, length)`
when the slot currently holds `old`. -/
def PNODE_START_RULE_NODE_LENGTH (old length : Nat) : Nat :=
  ((((length % 2 ^ 64) &&& 0xFF) <<< 12) ||| old) % 2 ^ 64

/-- The word stored by `PNODE_END_RULE_NODE(node, index, type, length)`. -/
def PNODE_END_RULE_NODE (type length : Nat) : Nat :=
  ((((length % 2 ^ 64) &&& 0xFF) <<< 12) ||| ((type &&& 0xFF) <<< 4) |||
    ((PNODE_END &&& 0x1) <<< 3) ||| (PNODE_RULE_NODE_TYPE &&& 0x7)) % 2 ^ 64

/-- The word stored by
`PNODE_TOKEN_NODE(node, index, input_start_index, type, length)`. -/
def PNODE_TOKEN_NODE (input_start_index type length : Nat) : Nat :=
  ((((length % 2 ^ 64) &&& 0xFFFFFF) <<< 36) |||
    (((input_start_index % 2 ^ 64) &&& 0xFFFFFF) <<< 12) |||
    ((type &&& 0xFF) <<< 3) ||| (PNODE_TOKEN_NODE_TYPE &&& 0x7)) % 2 ^ 64

/-- The word stored by
`PNODE_ERROR(node, index, input_start_index, type, length)`. -/
def PNODE_ERROR (input_start_index type length : Nat) : Nat :=
  ((((length % 2 ^ 64) &&& 0xFFFFFF) <<< 36) |||
    (((input_start_index % 2 ^ 64) &&& 0xFFFFFF) <<< 12) |||
    ((type &&& 0xFF) <<< 3) ||| (PNODE_ERROR_NODE_TYPE &&& 0x7)) % 2 ^ 64

/-! ## The walker state -/

/-- The destination buffer `root_node`, the cursor `*index`, and the list of
indices stored to so far (most recent last). -/
structure PState where
  root_node : List Nat
  index : Nat
  writes : List Nat
deriving DecidableEq, Repr

/-- The assignment `node[i] = w`.  An index outside the buffer is an overrun. -/
def PState.store (st : PState) (i w : Nat) : Option PState :=
  if i < st.root_node.length then
    some { st with root_node := st.root_node.set i w, writes := st.writes ++ [i] }
  else none

/-- The statement `(*index)++`. -/
def PState.bump (st : PState) : PState := { st with index := st.index + 1 }

/-- The flags computed by lines 64-107 of `ts_ptree_build__`. -/
structure NodeFlags where
  visible : Bool
  is_token_node : Bool
  is_rule_node : Bool
  is_error_node_unexpected : Bool
  is_error_node : Bool
  is_error_node_missing : Bool
deriving DecidableEq, Repr

/-- Lines 64-107 of `ts_ptree_build__`: visibility and the kind flags. -/
def node_flags (d : SubtreeData) (child_count : Nat) (is_root include_all alias_is_named : Bool) :
    NodeFlags :=
  let visible := include_all || is_root || d.is_missing || (d.visible && d.named) ||
    alias_is_named
  let is_error_node := d.is_error
  let is_error_node_missing := d.is_missing
  if visible then
    let is_error_node_unexpected := is_error_node && child_count == 0 && decide (d.size.bytes > 0)
    if is_error_node_unexpected then
      ⟨visible, false, false, true, true, is_error_node_missing⟩
    else if is_error_node_missing then
      ⟨visible, false, false, false, true, is_error_node_missing⟩
    else if is_error_node then
      ⟨visible, false, false, false, is_error_node, is_error_node_missing⟩
    else if child_count == 0 then
      ⟨visible, true, false, false, is_error_node, is_error_node_missing⟩
    else
      ⟨visible, false, true, false, is_error_node, is_error_node_missing⟩
  else
    ⟨visible, false, false, false, is_error_node, is_error_node_missing⟩

/-- Line 75 of `ts_ptree_build__`: the symbol the node is reported under,
`alias_symbol ? alias_symbol : ts_subtree_symbol(self)`. -/
def effective_symbol (d : SubtreeData) (alias_symbol : Nat) : Nat :=
  if alias_symbol != 0 then alias_symbol else d.symbol

/-- Line 175: `alias_sequence ? alias_sequence[child_index] : 0`. -/
def child_alias_symbol (alias_sequence : Option (Nat → Nat)) (child_index : Nat) : Nat :=
  match alias_sequence with
  | some seq => seq child_index
  | none => 0

/-- Line 176: `alias_symbol ? ts_language_symbol_metadata(language, alias_symbol).named : false`. -/
def child_alias_is_named (language : TSLanguage) (alias_symbol : Nat) : Bool :=
  if alias_symbol != 0 then language.symbol_named alias_symbol else false

/-- Lines 109-159 of `ts_ptree_build__`: the node's own entry. -/
def emit_own (d : SubtreeData) (f : NodeFlags) (symbol : Nat) (start_pos : Length)
    ( pre_count : Bool) (st : PState) : Option PState :=
  if !pre_count then
    if f.is_rule_node then
      (st.store st.index (PNODE_START_RULE_NODE symbol)).map PState.bump
    else if f.is_token_node then
      let start_offset := (start_pos.bytes + d.padding.bytes) % 2 ^ 32
      (st.store st.index (PNODE_TOKEN_NODE start_offset symbol d.size.bytes)).map PState.bump
    else if f.is_error_node_unexpected then
      let start_offset := (start_pos.bytes + d.padding.bytes) % 2 ^ 32
      let length := d.size.bytes
      let length := if length == 0 then 1 else length
      (st.store st.index (PNODE_ERROR start_offset PNODE_ERROR_UNEXPECTED length)).map PState.bump
    else if f.is_error_node_missing then
      let start_offset := (start_pos.bytes + d.padding.bytes) % 2 ^ 32
      let length := d.size.bytes
      let length := if length == 0 then 1 else length
      (st.store st.index (PNODE_ERROR start_offset PNODE_ERROR_MISSING length)).map PState.bump
    else if f.is_error_node then
      let start_offset := (start_pos.bytes + d.padding.bytes) % 2 ^ 32
      let length := d.size.bytes
      let length := if length == 0 then 1 else length
      (st.store st.index (PNODE_ERROR start_offset PNODE_ERROR_GENERAL length)).map PState.bump
    else some st
  else
    if f.is_rule_node then some st.bump
    else if f.is_token_node then some st.bump
    else if f.is_error_node_unexpected then some st.bump
    else if f.is_error_node_missing then some st.bump
    else if f.is_error_node then some st.bump
    else some st

/-- Lines 185-196 of `ts_ptree_build__`: the end marker of a rule node and the
patch of its start marker. -/
def emit_end (f : NodeFlags) (symbol start_index : Nat) ( pre_count : Bool) (st : PState) :
    Option PState :=
  if !pre_count then
    if f.is_rule_node then
      let length := (st.index - start_index) % 2 ^ 32
      (st.store st.index (PNODE_END_RULE_NODE symbol length)).bind fun st1 =>
        (st1.store start_index
          (PNODE_START_RULE_NODE_LENGTH (st1.root_node.getD start_index 0) length)).map
          PState.bump
    else some st
  else
    if f.is_rule_node then some st.bump else some st

mutual
/-- The function `ts_ptree_build__` (lines 57-197). -/
def ts_ptree_build__ (language : TSLanguage) (include_all pre_count : Bool) :
    Subtree → PState → Length → Bool → Nat → Bool → Option PState
  | .null, st, _, _, _, _ => some st
  | .node d children, st, start_pos, is_root, alias_symbol, alias_is_named =>
    let f := node_flags d children.length is_root include_all alias_is_named
    let start_index := st.index
    let symbol := effective_symbol d alias_symbol
    if symbol == language.sym_end then some st
    else
      (emit_own d f symbol start_pos pre_count st).bind fun st1 =>
        (ts_ptree_build_children language include_all pre_count
          (language.alias_sequence d.alias_sequence_id) children st1 start_pos 0).bind fun st2 =>
          emit_end f symbol start_index pre_count st2
/-- The `for` loop over the children (lines 166-182), from child `i` on, with
the loop variables `pos` and `child_index`. -/
def ts_ptree_build_children (language : TSLanguage) (include_all pre_count : Bool)
    (alias_sequence : Option (Nat → Nat)) :
    List Subtree → PState → Length → Nat → Option PState
  | [], st, _, _ => some st
  | child :: rest, st, pos, child_index =>
    if ts_subtree_extra child then
      (ts_ptree_build__ language include_all pre_count child st pos false 0 false).bind fun st1 =>
        let child_size := ts_subtree_size child
        let child_padding := ts_subtree_padding child
        let pos := length_add (length_add pos child_padding) child_size
        ts_ptree_build_children language include_all pre_count alias_sequence rest st1 pos
          child_index
    else
      let alias_symbol := child_alias_symbol alias_sequence child_index
      (ts_ptree_build__ language include_all pre_count child st pos false alias_symbol
        (child_alias_is_named language alias_symbol)).bind fun st1 =>
        let child_size := ts_subtree_size child
        let child_padding := ts_subtree_padding child
        let pos := length_add (length_add pos child_padding) child_size
        ts_ptree_build_children language include_all pre_count alias_sequence rest st1 pos
          ((child_index + 1) % 2 ^ 32)
end

/-- The packed tree handle `struct PTree` of `ptree.h` (the `str` member is
always `NULL` and is left out). -/
structure PTree where
  tree : TSTree
  root_node : List Nat
  length : Nat

/-- The function `ts_ptree_new`. -/
def ts_ptree_new (tree : TSTree) (root_node : List Nat) (length : Nat) : PTree :=
  ⟨tree, root_node, length⟩

/-- The function `ts_ptree_build_` (lines 199-211): the counting pass, the
zero-initialised allocation, the writing pass. -/
def ts_ptree_build_ (tree : TSTree) (include_all : Bool) : Option PTree :=
  let root := tree.root
  (ts_ptree_build__ tree.language include_all true root ⟨[], 0, []⟩ length_zero true 0 false).bind
    fun c =>
      let pnode := List.replicate c.index 0
      (ts_ptree_build__ tree.language include_all false root ⟨pnode, 0, []⟩ length_zero true 0
        false).map fun w => ts_ptree_new tree w.root_node w.index

/-- The function `ts_ptree_build` (lines 213-215). -/
def ts_ptree_build (tree : TSTree) (include_all : Bool) : Option PTree :=
  ts_ptree_build_ tree include_all

/-! ## The packed array as a list of words

`entries` describes, without a buffer, the words that the walk leaves in the
slots it passes over.  `build_write` below proves that the writing pass stores
exactly these words, and `build_count` that the counting pass counts them. -/

/-- The word that lines 109-146 store for the node itself, if any (for a rule
node: the start marker before its length is patched in). -/
def own_entry (d : SubtreeData) (f : NodeFlags) (symbol : Nat) (start_pos : Length) :
    Option Nat :=
  let start_offset := (start_pos.bytes + d.padding.bytes) % 2 ^ 32
  let length := if d.size.bytes == 0 then 1 else d.size.bytes
  if f.is_rule_node then some (PNODE_START_RULE_NODE symbol)
  else if f.is_token_node then some (PNODE_TOKEN_NODE start_offset symbol d.size.bytes)
  else if f.is_error_node_unexpected then
    some (PNODE_ERROR start_offset PNODE_ERROR_UNEXPECTED length)
  else if f.is_error_node_missing then some (PNODE_ERROR start_offset PNODE_ERROR_MISSING length)
  else if f.is_error_node then some (PNODE_ERROR start_offset PNODE_ERROR_GENERAL length)
  else none

mutual
/-- The words contributed by one subtree. -/
def entries (language : TSLanguage) (include_all : Bool) :
    Subtree → Length → Bool → Nat → Bool → List Nat
  | .null, _, _, _, _ => []
  | .node d children, start_pos, is_root, alias_symbol, alias_is_named =>
    let f := node_flags d children.length is_root include_all alias_is_named
    let symbol := effective_symbol d alias_symbol
    if symbol == language.sym_end then []
    else
      let cs := entries_children language include_all
        (language.alias_sequence d.alias_sequence_id) children start_pos 0
      if f.is_rule_node then
        let length := (cs.length + 1) % 2 ^ 32
        PNODE_START_RULE_NODE_LENGTH (PNODE_START_RULE_NODE symbol) length ::
          (cs ++ [PNODE_END_RULE_NODE symbol length])
      else (own_entry d f symbol start_pos).toList ++ cs
/-- The words contributed by a list of children walked from `pos` with the
non-extra ordinal `child_index`. -/
def entries_children (language : TSLanguage) (include_all : Bool)
    (alias_sequence : Option (Nat → Nat)) :
    List Subtree → Length → Nat → List Nat
  | [], _, _ => []
  | child :: rest, pos, child_index =>
    let next := length_add (length_add pos (ts_subtree_padding child)) (ts_subtree_size child)
    if ts_subtree_extra child then
      entries language include_all child pos false 0 false ++
        entries_children language include_all alias_sequence rest next child_index
    else
      let alias_symbol := child_alias_symbol alias_sequence child_index
      entries language include_all child pos false alias_symbol
          (child_alias_is_named language alias_symbol) ++
        entries_children language include_all alias_sequence rest next
          ((child_index + 1) % 2 ^ 32)
end

/-- What the writing pass does to a state whose buffer is `pre ++ rest` with
the cursor just after `pre`, when `rest` has room for the entries `E`. -/
def WritesTo (res : Option PState) (st : PState) (pre rest E : List Nat) : Prop :=
  ∃ wl, res = some ⟨pre ++ (E ++ rest.drop E.length), pre.length + E.length, st.writes ++ wl⟩ ∧
    (∀ i ∈ wl, pre.length ≤ i ∧ i < pre.length + E.length) ∧
    (∀ i, pre.length ≤ i → i < pre.length + E.length → i ∈ wl)

/-- The number of entries the counting pass (`pre_count = true`, buffer absent)
counts for a subtree walked in the given context. -/
def counted (language : TSLanguage) (include_all : Bool) (t : Subtree) (start_pos : Length)
    (is_root : Bool) (alias_symbol : Nat) (alias_is_named : Bool) : Nat :=
  match ts_ptree_build__ language include_all true t ⟨[], 0, []⟩ start_pos is_root alias_symbol
      alias_is_named with
  | some c => c.index
  | none => 0

/-- The number of entries the counting pass counts for the loop over a list of
children. -/
def counted_children (language : TSLanguage) (include_all : Bool)
    (alias_sequence : Option (Nat → Nat)) (cs : List Subtree) (pos : Length)
    (child_index : Nat) : Nat :=
  match ts_ptree_build_children language include_all true alias_sequence cs ⟨[], 0, []⟩ pos
      child_index with
  | some c => c.index
  | none => 0

/-- The slice of the array a subtree contributes: the buffer the writing pass
(`pre_count = false`) leaves when it is run on the subtree alone, from index 0
of a zero-initialised buffer of the counted size. -/
def contributed (language : TSLanguage) (include_all : Bool) (t : Subtree) (start_pos : Length)
    (is_root : Bool) (alias_symbol : Nat) (alias_is_named : Bool) : List Nat :=
  match ts_ptree_build__ language include_all false t
      ⟨List.replicate (counted language include_all t start_pos is_root alias_symbol
        alias_is_named) 0, 0, []⟩ start_pos is_root alias_symbol alias_is_named with
  | some w => w.root_node
  | none => []

/-- The slice of the array the loop over a list of children contributes: the
buffer the writing pass leaves when the loop is run alone, from index 0 of a
zero-initialised buffer of the counted size. -/
def contributed_children (language : TSLanguage) (include_all : Bool)
    (alias_sequence : Option (Nat → Nat)) (cs : List Subtree) (pos : Length)
    (child_index : Nat) : List Nat :=
  match ts_ptree_build_children language include_all false alias_sequence cs
      ⟨List.replicate (counted_children language include_all alias_sequence cs pos child_index) 0,
        0, []⟩ pos child_index with
  | some w => w.root_node
  | none => []

/-! ## Read accessors for the word layouts

`ptree.c` has no decoder; these follow the shifts and masks of its `PNODE_*`
constructors. -/

/-- Bits 0..2: the kind tag. -/
def kind_tag (w : Nat) : Nat := w % 8

/-- Bit 3 of a rule marker: 0 = start, 1 = end. -/
def rule_end_bit (w : Nat) : Nat := w / 2 ^ 3 % 2

/-- Bits 4..11 of a rule marker: the symbol. -/
def rule_symbol_field (w : Nat) : Nat := w / 2 ^ 4 % 2 ^ 8

/-- Bits 12..19 of a rule marker: the span length. -/
def span_length_field (w : Nat) : Nat := w / 2 ^ 12 % 2 ^ 8

/-- Bits 3..10 of a token or error word: the symbol or the error subkind. -/
def symbol_field (w : Nat) : Nat := w / 2 ^ 3 % 2 ^ 8

/-- Bits 12..35 of a token or error word: the start byte offset. -/
def start_offset_field (w : Nat) : Nat := w / 2 ^ 12 % 2 ^ 24

/-- Bits 36..59 of a token or error word: the byte length. -/
def byte_length_field (w : Nat) : Nat := w / 2 ^ 36 % 2 ^ 24

/-- A rule start marker: kind tag 1 with bit 3 clear. -/
def is_rule_start (w : Nat) : Bool := kind_tag w == PNODE_RULE_NODE_TYPE && rule_end_bit w == PNODE_START

/-- A rule end marker: kind tag 1 with bit 3 set. -/
def is_rule_end (w : Nat) : Bool := kind_tag w == PNODE_RULE_NODE_TYPE && rule_end_bit w == PNODE_END

/-! ## The classification as the specification words it -/

/-- The five outcomes for a visible node. -/
inductive Outcome where
  | unexpected_error
  | missing_error
  | general_error
  | token
  | rule
deriving DecidableEq, Repr

/-- The priority order of the specification for a visible node: unexpected
error, else missing error, else general error, else token, else rule. -/
def spec_outcome (d : SubtreeData) (child_count : Nat) : Outcome :=
  if d.is_error = true ∧ child_count = 0 ∧ d.size.bytes > 0 then .unexpected_error
  else if d.is_missing = true then .missing_error
  else if d.is_error = true then .general_error
  else if child_count = 0 then .token
  else .rule

/-- The words the specification expects from a visible node with outcome `o`,
given the words `cs` of its children. -/
def spec_entries (o : Outcome) (d : SubtreeData) (symbol : Nat) (start_pos : Length)
    (cs : List Nat) : List Nat :=
  let start_offset := (start_pos.bytes + d.padding.bytes) % 2 ^ 32
  let length := if d.size.bytes = 0 then 1 else d.size.bytes
  match o with
  | .unexpected_error => [PNODE_ERROR start_offset PNODE_ERROR_UNEXPECTED length]
  | .missing_error => PNODE_ERROR start_offset PNODE_ERROR_MISSING length :: cs
  | .general_error => PNODE_ERROR start_offset PNODE_ERROR_GENERAL length :: cs
  | .token => [PNODE_TOKEN_NODE start_offset symbol d.size.bytes]
  | .rule =>
    PNODE_START_RULE_NODE_LENGTH (PNODE_START_RULE_NODE symbol) ((cs.length + 1) % 2 ^ 32) ::
      (cs ++ [PNODE_END_RULE_NODE symbol ((cs.length + 1) % 2 ^ 32)])

/-! ## Concrete trees -/

/-- A language without alias sequences whose end-of-input symbol is 0. -/
def plain_language : TSLanguage := ⟨fun _ => none, fun _ => false, 0⟩

/-- A leaf that is neither extra, missing nor an error. -/
def plain_leaf (symbol padding size : Nat) (visible named : Bool) : Subtree :=
  .node ⟨symbol, ⟨padding⟩, ⟨size⟩, visible, named, false, false, false, 0⟩ []

/-- An error leaf of one byte whose `visible` and `named` flags are clear. No
source tree holds such a node (see `errors_visible`); it serves to show that the
condition on error nodes is needed. -/
def hidden_error_leaf : Subtree :=
  .node ⟨65535, ⟨0⟩, ⟨1⟩, false, false, false, false, true, 0⟩ []

/-- A rule node whose only child is `hidden_error_leaf`. -/
def hidden_error_tree : TSTree :=
  ⟨.node ⟨1, ⟨0⟩, ⟨1⟩, true, true, false, false, false, 0⟩ [hidden_error_leaf], plain_language⟩

/-- The outcome a stored word stands for, read from its kind tag and, for an
error word, its subkind field. -/
def decode_outcome (w : Nat) : Option Outcome :=
  if kind_tag w = PNODE_ERROR_NODE_TYPE then
    if symbol_field w = PNODE_ERROR_UNEXPECTED then some .unexpected_error
    else if symbol_field w = PNODE_ERROR_MISSING then some .missing_error
    else if symbol_field w = PNODE_ERROR_GENERAL then some .general_error
    else none
  else if kind_tag w = PNODE_TOKEN_NODE_TYPE then some .token
  else if kind_tag w = PNODE_RULE_NODE_TYPE then some .rule
  else none

/-- The part of a word that the `include_all` comparison looks at: the kind
tag; for a rule marker the start/end bit and the symbol; for a token or error
word the symbol or subkind and the start offset.  The span-length field of a
rule marker and the byte-length field are left out. -/
def compare_key (w : Nat) : Nat × Nat × Nat × Nat :=
  if kind_tag w = PNODE_RULE_NODE_TYPE then
    (kind_tag w, rule_end_bit w, rule_symbol_field w, 0)
  else (kind_tag w, 0, symbol_field w, start_offset_field w)

/-! ## Matching of rule markers -/

/-- The nesting depth of rule markers after reading a list of words from depth
`depth`; `none` when an end marker is met at depth 0. -/
def marker_depth : List Nat → Nat → Option Nat
  | [], depth => some depth
  | w :: ws, depth =>
    if is_rule_start w then marker_depth ws (depth + 1)
    else if is_rule_end w then
      match depth with
      | 0 => none
      | k + 1 => marker_depth ws k
    else marker_depth ws depth

/-- A list of words whose rule markers are properly nested and all closed. -/
def balanced (l : List Nat) : Prop := marker_depth l 0 = some 0

/-- The words strictly between the indices `i` and `j`. -/
def between (l : List Nat) (i j : Nat) : List Nat := (l.drop (i + 1)).take (j - i - 1)

/-- Index `j` holds the end marker that matches the start marker at index `i`:
both are rule markers of the right polarity and the words between them are
balanced. -/
def matching_end (l : List Nat) (i j : Nat) : Prop :=
  i < j ∧ j < l.length ∧ is_rule_start (l.getD i 0) = true ∧ is_rule_end (l.getD j 0) = true ∧
    balanced (between l i j)

/-- Span integrity of an array for a given span-length formula: every rule
start marker has exactly one matching end marker, and the span-length field of
both markers is `len i j`. -/
def span_integrity (l : List Nat) (len : Nat → Nat → Nat) : Prop :=
  ∀ i, i < l.length → is_rule_start (l.getD i 0) = true →
    ∃ j, matching_end l i j ∧ (∀ k, matching_end l i k → k = j) ∧
      span_length_field (l.getD i 0) = len i j ∧ span_length_field (l.getD j 0) = len i j

/-- The shape of the arrays the walker produces: a sequence of words that are
no rule markers and of rule pairs enclosing such a sequence, the length
argument of each pair being congruent mod 256 to the distance of its markers. -/
inductive PackedForest : List Nat → Prop where
  | nil : PackedForest []
  | leaf (w : Nat) (rest : List Nat) : is_rule_start w = false → is_rule_end w = false →
      PackedForest rest → PackedForest (w :: rest)
  | rule (s n : Nat) (cs rest : List Nat) : PackedForest cs → PackedForest rest →
      n % 256 = (cs.length + 1) % 256 →
      PackedForest (PNODE_START_RULE_NODE_LENGTH (PNODE_START_RULE_NODE s) n ::
        (cs ++ PNODE_END_RULE_NODE s n :: rest))

/-- A rule node with a single token child. -/
def one_token_tree : TSTree :=
  ⟨.node ⟨1, ⟨0⟩, ⟨1⟩, true, true, false, false, false, 0⟩ [plain_leaf 2 0 1 true true],
    plain_language⟩

/-- Index `j` holds the matching end marker of the start marker at `i`, and
the span-length field of both markers is the distance `j - i` mod 256. -/
def span_match (l : List Nat) (i j : Nat) : Prop :=
  matching_end l i j ∧ span_length_field (l.getD i 0) = (j - i) % 256 ∧
    span_length_field (l.getD j 0) = (j - i) % 256

/-! ## Positions in a tree -/

/-- The subtree reached from `t` by following the child indices of `path`. -/
def subtree_at : Subtree → List Nat → Option Subtree
  | t, [] => some t
  | .null, _ :: _ => none
  | .node _ cs, k :: path =>
    match cs[k]? with
    | none => none
    | some c => subtree_at c path

/-- The tree `t` with the subtree at `path` replaced by `new` (`t` itself when
the path leaves the tree). -/
def replace_at : Subtree → List Nat → Subtree → Subtree
  | _, [], new => new
  | .null, _ :: _, _ => .null
  | .node d cs, k :: path, new =>
    match cs[k]? with
    | none => .node d cs
    | some c => .node d (cs.set k (replace_at c path new))

/-- A language without alias overrides: every alias sequence is absent or
holds only the symbol 0. -/
def no_alias_overrides (language : TSLanguage) : Prop :=
  ∀ id seq k, language.alias_sequence id = some seq → seq k = 0

/-- A tree with an invisible wrapper (symbol 9) around a token, between two
other tokens. -/
def wrapper_tree : Subtree :=
  .node ⟨1, ⟨0⟩, ⟨5⟩, true, true, false, false, false, 0⟩
    [plain_leaf 2 0 1 true true,
     .node ⟨9, ⟨1⟩, ⟨2⟩, false, false, false, false, false, 0⟩ [plain_leaf 3 1 2 true true],
     plain_leaf 2 0 1 true true]

/-- A rule node with 255 one-byte token children. -/
def wide_tree : TSTree :=
  ⟨.node ⟨1, ⟨0⟩, ⟨255⟩, true, true, false, false, false, 0⟩
    (List.replicate 255 (plain_leaf 2 0 1 true true)), plain_language⟩

/-- A rule node over an anonymous token, a hidden wrapper around an error leaf
with the flags of the error symbol (visible and named), and a named token. -/
def recovered_tree : TSTree :=
  ⟨.node ⟨1, ⟨0⟩, ⟨4⟩, true, true, false, false, false, 0⟩
    [plain_leaf 2 0 1 true false,
     .node ⟨9, ⟨0⟩, ⟨1⟩, false, false, false, false, false, 0⟩
       [.node ⟨65535, ⟨0⟩, ⟨1⟩, true, true, false, false, true, 0⟩ []],
     plain_leaf 3 1 1 true true], plain_language⟩

mutual
/-- Modelled from the spec: the condition on error nodes that every source tree
meets, every error node of the subtree has its `visible` and `named` flags set.
The subtree module is not part of `src/`: there a node is an error node when its
symbol is the built-in error symbol, a node takes its two flags from the
metadata of its symbol, and the metadata of the error symbol is visible and
named. The specification likewise lists the nodes of error recovery among the
visible nodes and classifies an error only among visible nodes. -/
def errors_visible : Subtree → Bool
  | .null => true
  | .node d cs => (!d.is_error || (d.visible && d.named)) && errors_visible_list cs
/-- Every error node of the subtrees has its `visible` and `named` flags set. -/
def errors_visible_list : List Subtree → Bool
  | [] => true
  | c :: cs => errors_visible c && errors_visible_list cs
end

/-! ## The loop variables of the walk over the children -/

/-- The value of the loop variable `pos` after the loop body has run for the
children `cs`, starting from `pos`. -/
def pos_after (pos : Length) : List Subtree → Length
  | [] => pos
  | c :: cs => pos_after (length_add (length_add pos (ts_subtree_padding c)) (ts_subtree_size c)) cs

/-- The value of the loop variable `child_index` after the loop body has run
for the children `cs`, starting from `child_index`. -/
def child_index_after (child_index : Nat) : List Subtree → Nat
  | [] => child_index
  | c :: cs =>
    child_index_after (if ts_subtree_extra c then child_index else (child_index + 1) % 2 ^ 32) cs

/-- The sum of padding and byte size over a list of children. -/
def children_bytes : List Subtree → Nat
  | [] => 0
  | c :: cs => (ts_subtree_padding c).bytes + (ts_subtree_size c).bytes + children_bytes cs

/-- The number of children that are not extra. -/
def non_extra_count : List Subtree → Nat
  | [] => 0
  | c :: cs => (if ts_subtree_extra c then 0 else 1) + non_extra_count cs

/-- A rule node whose children are a one-byte token and a missing leaf with
two bytes of padding. -/
def missing_leaf_tree : TSTree :=
  ⟨.node ⟨1, ⟨0⟩, ⟨3⟩, true, true, false, false, false, 0⟩
    [plain_leaf 2 0 1 true true,
     .node ⟨7, ⟨2⟩, ⟨0⟩, true, false, false, true, false, 0⟩ []], plain_language⟩

/-- A language whose alias sequence 1 renames every child to the named
symbol 5; its end-of-input symbol is 0. -/
def alias_language : TSLanguage :=
  ⟨fun id => if id = 1 then some (fun _ => 5) else none, fun s => s == 5, 0⟩

/-- Index `j` holds the matching end marker of the start marker at `i`, and
the word of the end marker is the word of the start marker with bit 3 set. -/
def word_match (l : List Nat) (i j : Nat) : Prop :=
  matching_end l i j ∧ l.getD j 0 = l.getD i 0 + 2 ^ 3


/-! ## Basic lemmas -/

/-- Simultaneous induction over a subtree and its list of children. -/
theorem subtree_induction {P : Subtree → Prop} {Q : List Subtree → Prop}
    (hnull : P .null) (hnode : ∀ d cs, Q cs → P (.node d cs))
    (hnil : Q []) (hcons : ∀ c cs, P c → Q cs → Q (c :: cs)) :
    (∀ t, P t) ∧ (∀ cs, Q cs) := by
  have hP : ∀ t, P t := fun t => Subtree.rec hnull hnode hnil hcons t
  refine ⟨hP, ?_⟩
  intro cs
  induction cs with
  | nil => exact hnil
  | cons c cs ih => exact hcons c cs (hP c) ih

/-! ## Arithmetic form of the packed words -/

theorem or_eq_add_of_dvd (a b i : Nat) (ha : 2 ^ i ∣ a) (hb : b < 2 ^ i) : a ||| b = a + b := by
  obtain ⟨k, rfl⟩ := ha
  exact (Nat.mul_add_lt_is_or hb k).symm

theorem and_ff (s : Nat) : s &&& 0xFF = s % 256 := Nat.and_pow_two_sub_one_eq_mod s 8

theorem and_ffffff (s : Nat) : (s % 2 ^ 64) &&& 0xFFFFFF = s % 2 ^ 24 := by
  rw [show (0xFFFFFF : Nat) = 2 ^ 24 - 1 by norm_num, Nat.and_pow_two_sub_one_eq_mod]
  omega

theorem and_ff64 (s : Nat) : (s % 2 ^ 64) &&& 0xFF = s % 256 := by
  rw [and_ff]; omega

/-- Arithmetic form of the start marker. -/
theorem start_rule_eq (s : Nat) : PNODE_START_RULE_NODE s = (s % 256) * 16 + 1 := by
  unfold PNODE_START_RULE_NODE PNODE_START PNODE_RULE_NODE_TYPE
  rw [and_ff]
  simp only [Nat.shiftLeft_eq]
  norm_num
  rw [or_eq_add_of_dvd _ 1 4 (by norm_num) (by norm_num)]
  omega

/-- Arithmetic form of the end marker. -/
theorem end_rule_eq (s l : Nat) :
    PNODE_END_RULE_NODE s l = (l % 256) * 4096 + (s % 256) * 16 + 9 := by
  unfold PNODE_END_RULE_NODE PNODE_END PNODE_RULE_NODE_TYPE
  rw [and_ff64, and_ff]
  simp only [Nat.shiftLeft_eq]
  have h1 : (1 &&& 0x1 : Nat) = 1 := by decide
  have h2 : (1 &&& 0x7 : Nat) = 1 := by decide
  rw [h1, h2]
  rw [or_eq_add_of_dvd _ ((s % 256) * 2 ^ 4) 12 (by omega) (by omega)]
  rw [or_eq_add_of_dvd _ (1 * 2 ^ 3) 4 (by omega) (by omega)]
  rw [or_eq_add_of_dvd _ 1 3 (by omega) (by omega)]
  omega

/-- Arithmetic form of a start marker after its length has been patched in. -/
theorem start_rule_length_eq (s l : Nat) :
    PNODE_START_RULE_NODE_LENGTH (PNODE_START_RULE_NODE s) l =
      (l % 256) * 4096 + (s % 256) * 16 + 1 := by
  rw [start_rule_eq]
  unfold PNODE_START_RULE_NODE_LENGTH
  rw [and_ff64]
  simp only [Nat.shiftLeft_eq]
  rw [or_eq_add_of_dvd _ ((s % 256) * 16 + 1) 12 (by omega) (by omega)]
  omega

/-- Arithmetic form of a token word. -/
theorem token_eq (o s l : Nat) :
    PNODE_TOKEN_NODE o s l = (l % 2 ^ 24) * 2 ^ 36 + (o % 2 ^ 24) * 2 ^ 12 + (s % 256) * 8 := by
  unfold PNODE_TOKEN_NODE PNODE_TOKEN_NODE_TYPE
  rw [and_ff, and_ffffff, and_ffffff]
  simp only [Nat.shiftLeft_eq]
  have h3 : (0 &&& 0x7 : Nat) = 0 := by decide
  rw [h3]
  rw [or_eq_add_of_dvd _ ((o % 2 ^ 24) * 2 ^ 12) 36 (by omega) (by omega)]
  rw [or_eq_add_of_dvd _ ((s % 256) * 2 ^ 3) 12 (by omega) (by omega)]
  rw [or_eq_add_of_dvd _ 0 3 (by omega) (by omega)]
  omega

/-- Arithmetic form of an error word. -/
theorem error_eq (o k l : Nat) :
    PNODE_ERROR o k l = (l % 2 ^ 24) * 2 ^ 36 + (o % 2 ^ 24) * 2 ^ 12 + (k % 256) * 8 + 3 := by
  unfold PNODE_ERROR PNODE_ERROR_NODE_TYPE
  rw [and_ff, and_ffffff, and_ffffff]
  simp only [Nat.shiftLeft_eq]
  have h3 : (3 &&& 0x7 : Nat) = 3 := by decide
  rw [h3]
  rw [or_eq_add_of_dvd _ ((o % 2 ^ 24) * 2 ^ 12) 36 (by omega) (by omega)]
  rw [or_eq_add_of_dvd _ ((k % 256) * 2 ^ 3) 12 (by omega) (by omega)]
  rw [or_eq_add_of_dvd _ 3 3 (by omega) (by omega)]
  omega

theorem kind_tag_error (o k l : Nat) : kind_tag (PNODE_ERROR o k l) = 3 := by
  rw [error_eq]; unfold kind_tag; omega

theorem symbol_field_error (o k l : Nat) : symbol_field (PNODE_ERROR o k l) = k % 256 := by
  rw [error_eq]; unfold symbol_field; omega

theorem start_offset_field_error (o k l : Nat) :
    start_offset_field (PNODE_ERROR o k l) = o % 2 ^ 24 := by
  rw [error_eq]; unfold start_offset_field; omega

theorem byte_length_field_error (o k l : Nat) :
    byte_length_field (PNODE_ERROR o k l) = l % 2 ^ 24 := by
  rw [error_eq]; unfold byte_length_field; omega

theorem kind_tag_token (o s l : Nat) : kind_tag (PNODE_TOKEN_NODE o s l) = 0 := by
  rw [token_eq]; unfold kind_tag; omega

theorem symbol_field_token (o s l : Nat) : symbol_field (PNODE_TOKEN_NODE o s l) = s % 256 := by
  rw [token_eq]; unfold symbol_field; omega

theorem start_offset_field_token (o s l : Nat) :
    start_offset_field (PNODE_TOKEN_NODE o s l) = o % 2 ^ 24 := by
  rw [token_eq]; unfold start_offset_field; omega

theorem byte_length_field_token (o s l : Nat) :
    byte_length_field (PNODE_TOKEN_NODE o s l) = l % 2 ^ 24 := by
  rw [token_eq]; unfold byte_length_field; omega

theorem kind_tag_start_unpatched (s : Nat) : kind_tag (PNODE_START_RULE_NODE s) = 1 := by
  rw [start_rule_eq]; unfold kind_tag; omega

theorem kind_tag_start (s l : Nat) :
    kind_tag (PNODE_START_RULE_NODE_LENGTH (PNODE_START_RULE_NODE s) l) = 1 := by
  rw [start_rule_length_eq]; unfold kind_tag; omega

theorem rule_end_bit_start (s l : Nat) :
    rule_end_bit (PNODE_START_RULE_NODE_LENGTH (PNODE_START_RULE_NODE s) l) = 0 := by
  rw [start_rule_length_eq]; unfold rule_end_bit; omega

theorem rule_symbol_field_start (s l : Nat) :
    rule_symbol_field (PNODE_START_RULE_NODE_LENGTH (PNODE_START_RULE_NODE s) l) = s % 256 := by
  rw [start_rule_length_eq]; unfold rule_symbol_field; omega

theorem span_length_field_start (s l : Nat) :
    span_length_field (PNODE_START_RULE_NODE_LENGTH (PNODE_START_RULE_NODE s) l) = l % 256 := by
  rw [start_rule_length_eq]; unfold span_length_field; omega

theorem kind_tag_end (s l : Nat) : kind_tag (PNODE_END_RULE_NODE s l) = 1 := by
  rw [end_rule_eq]; unfold kind_tag; omega

theorem rule_end_bit_end (s l : Nat) : rule_end_bit (PNODE_END_RULE_NODE s l) = 1 := by
  rw [end_rule_eq]; unfold rule_end_bit; omega

theorem rule_symbol_field_end (s l : Nat) :
    rule_symbol_field (PNODE_END_RULE_NODE s l) = s % 256 := by
  rw [end_rule_eq]; unfold rule_symbol_field; omega

theorem span_length_field_end (s l : Nat) :
    span_length_field (PNODE_END_RULE_NODE s l) = l % 256 := by
  rw [end_rule_eq]; unfold span_length_field; omega

theorem is_rule_start_start (s n : Nat) :
    is_rule_start (PNODE_START_RULE_NODE_LENGTH (PNODE_START_RULE_NODE s) n) = true := by
  simp [is_rule_start, kind_tag_start, rule_end_bit_start, PNODE_RULE_NODE_TYPE, PNODE_START]

theorem is_rule_end_start (s n : Nat) :
    is_rule_end (PNODE_START_RULE_NODE_LENGTH (PNODE_START_RULE_NODE s) n) = false := by
  simp [is_rule_end, kind_tag_start, rule_end_bit_start, PNODE_RULE_NODE_TYPE, PNODE_END]

theorem is_rule_start_end (s n : Nat) : is_rule_start (PNODE_END_RULE_NODE s n) = false := by
  simp [is_rule_start, kind_tag_end, rule_end_bit_end, PNODE_RULE_NODE_TYPE, PNODE_START]

theorem is_rule_end_end (s n : Nat) : is_rule_end (PNODE_END_RULE_NODE s n) = true := by
  simp [is_rule_end, kind_tag_end, rule_end_bit_end, PNODE_RULE_NODE_TYPE, PNODE_END]

theorem is_rule_start_token (o s l : Nat) : is_rule_start (PNODE_TOKEN_NODE o s l) = false := by
  simp [is_rule_start, kind_tag_token, PNODE_RULE_NODE_TYPE]

theorem is_rule_end_token (o s l : Nat) : is_rule_end (PNODE_TOKEN_NODE o s l) = false := by
  simp [is_rule_end, kind_tag_token, PNODE_RULE_NODE_TYPE]

theorem is_rule_start_error (o k l : Nat) : is_rule_start (PNODE_ERROR o k l) = false := by
  simp [is_rule_start, kind_tag_error, PNODE_RULE_NODE_TYPE]

theorem is_rule_end_error (o k l : Nat) : is_rule_end (PNODE_ERROR o k l) = false := by
  simp [is_rule_end, kind_tag_error, PNODE_RULE_NODE_TYPE]

theorem not_start_and_end (w : Nat) (h : is_rule_start w = true) : is_rule_end w = false := by
  unfold is_rule_start at h
  unfold is_rule_end
  simp only [PNODE_START, PNODE_END, Bool.and_eq_true, beq_iff_eq] at h ⊢
  simp [h.2]

theorem compare_key_start (s n : Nat) :
    compare_key (PNODE_START_RULE_NODE_LENGTH (PNODE_START_RULE_NODE s) n) =
      (1, 0, s % 256, 0) := by
  simp [compare_key, kind_tag_start, rule_end_bit_start, rule_symbol_field_start,
    PNODE_RULE_NODE_TYPE]

theorem compare_key_end (s n : Nat) :
    compare_key (PNODE_END_RULE_NODE s n) = (1, 1, s % 256, 0) := by
  simp [compare_key, kind_tag_end, rule_end_bit_end, rule_symbol_field_end,
    PNODE_RULE_NODE_TYPE]

theorem map_key_rule (s n : Nat) (cs : List Nat) :
    List.map compare_key (PNODE_START_RULE_NODE_LENGTH (PNODE_START_RULE_NODE s) n ::
      (cs ++ [PNODE_END_RULE_NODE s n])) =
      (1, 0, s % 256, 0) :: (List.map compare_key cs ++ [(1, 1, s % 256, 0)]) := by
  simp [compare_key_start, compare_key_end]

/-! ## One step of the walk -/

theorem emit_own_count (d : SubtreeData) (f : NodeFlags) (symbol : Nat) (start_pos : Length)
    (st : PState) :
    emit_own d f symbol start_pos true st =
      some ⟨st.root_node, st.index + (own_entry d f symbol start_pos).toList.length, st.writes⟩ := by
  unfold emit_own own_entry
  cases st
  split_ifs <;> simp_all [PState.bump]

theorem emit_own_write (d : SubtreeData) (f : NodeFlags) (symbol : Nat) (start_pos : Length)
    (st : PState) :
    emit_own d f symbol start_pos false st =
      match own_entry d f symbol start_pos with
      | none => some st
      | some w => (st.store st.index w).map PState.bump := by
  unfold emit_own own_entry
  split_ifs <;> simp_all

theorem own_entry_rule (d : SubtreeData) (f : NodeFlags) (symbol : Nat) (start_pos : Length)
    (h : f.is_rule_node = true) :
    own_entry d f symbol start_pos = some (PNODE_START_RULE_NODE symbol) := by
  unfold own_entry; simp [h]

/-- The alias override, its namedness and the next ordinal for a child, as the
loop body chooses them. -/
theorem build_children_cons (language : TSLanguage) (include_all pre_count : Bool)
    (aseq : Option (Nat → Nat)) (c : Subtree) (cs : List Subtree) (st : PState) (pos : Length)
    (ci : Nat) :
    ts_ptree_build_children language include_all pre_count aseq (c :: cs) st pos ci =
      (ts_ptree_build__ language include_all pre_count c st pos false
        (if ts_subtree_extra c then 0 else child_alias_symbol aseq ci)
        (if ts_subtree_extra c then false
          else child_alias_is_named language (child_alias_symbol aseq ci))).bind fun st1 =>
        ts_ptree_build_children language include_all pre_count aseq cs st1
          (length_add (length_add pos (ts_subtree_padding c)) (ts_subtree_size c))
          (if ts_subtree_extra c then ci else (ci + 1) % 2 ^ 32) := by
  simp only [ts_ptree_build_children]
  by_cases hx : ts_subtree_extra c = true <;> simp [hx]

theorem entries_children_cons (language : TSLanguage) (include_all : Bool)
    (aseq : Option (Nat → Nat)) (c : Subtree) (cs : List Subtree) (pos : Length) (ci : Nat) :
    entries_children language include_all aseq (c :: cs) pos ci =
      entries language include_all c pos false
        (if ts_subtree_extra c then 0 else child_alias_symbol aseq ci)
        (if ts_subtree_extra c then false
          else child_alias_is_named language (child_alias_symbol aseq ci)) ++
        entries_children language include_all aseq cs
          (length_add (length_add pos (ts_subtree_padding c)) (ts_subtree_size c))
          (if ts_subtree_extra c then ci else (ci + 1) % 2 ^ 32) := by
  simp only [entries_children]
  by_cases hx : ts_subtree_extra c = true <;> simp [hx]

theorem build_node_eq (language : TSLanguage) (include_all pre_count : Bool) (d : SubtreeData)
    (cs : List Subtree) (st : PState) (start_pos : Length) (is_root : Bool) (a : Nat) (an : Bool) :
    ts_ptree_build__ language include_all pre_count (.node d cs) st start_pos is_root a an =
      if effective_symbol d a == language.sym_end then some st
      else
        (emit_own d (node_flags d cs.length is_root include_all an) (effective_symbol d a)
          start_pos pre_count st).bind fun st1 =>
          (ts_ptree_build_children language include_all pre_count
            (language.alias_sequence d.alias_sequence_id) cs st1 start_pos 0).bind fun st2 =>
            emit_end (node_flags d cs.length is_root include_all an) (effective_symbol d a)
              st.index pre_count st2 := by
  rw [ts_ptree_build__]

theorem entries_node_eq (language : TSLanguage) (include_all : Bool) (d : SubtreeData)
    (cs : List Subtree) (start_pos : Length) (is_root : Bool) (a : Nat) (an : Bool) :
    entries language include_all (.node d cs) start_pos is_root a an =
      if effective_symbol d a == language.sym_end then []
      else if (node_flags d cs.length is_root include_all an).is_rule_node then
        PNODE_START_RULE_NODE_LENGTH (PNODE_START_RULE_NODE (effective_symbol d a))
            (((entries_children language include_all (language.alias_sequence d.alias_sequence_id)
              cs start_pos 0).length + 1) % 2 ^ 32) ::
          (entries_children language include_all (language.alias_sequence d.alias_sequence_id)
              cs start_pos 0 ++
            [PNODE_END_RULE_NODE (effective_symbol d a)
              (((entries_children language include_all
                (language.alias_sequence d.alias_sequence_id) cs start_pos 0).length + 1) %
                2 ^ 32)])
      else
        (own_entry d (node_flags d cs.length is_root include_all an) (effective_symbol d a)
          start_pos).toList ++
          entries_children language include_all (language.alias_sequence d.alias_sequence_id)
            cs start_pos 0 := by
  rw [entries]

/-- The entries of a plain leaf walked without an alias as a non-root child. -/
theorem entries_plain_leaf (language : TSLanguage) (include_all : Bool) (s pad size : Nat)
    (visible named : Bool) (pos : Length) (hs : s ≠ language.sym_end) :
    entries language include_all (plain_leaf s pad size visible named) pos false 0 false =
      if (include_all || (visible && named)) = true then
        [PNODE_TOKEN_NODE ((pos.bytes + pad) % 2 ^ 32) s size]
      else [] := by
  unfold plain_leaf
  rw [entries_node_eq]
  have h : (effective_symbol ⟨s, ⟨pad⟩, ⟨size⟩, visible, named, false, false, false, 0⟩ 0 ==
      language.sym_end) = false := by simpa [effective_symbol] using hs
  simp only [h, Bool.false_eq_true, if_false]
  cases include_all <;> cases visible <;> cases named <;>
    simp [node_flags, own_entry, entries_children, effective_symbol]

/-! ## The two passes store and count the entries -/

/-- The counting pass advances the cursor by the number of entries and touches
nothing else. -/
theorem build_count (language : TSLanguage) (include_all : Bool) :
    (∀ t st start_pos is_root alias_symbol alias_is_named,
      ts_ptree_build__ language include_all true t st start_pos is_root alias_symbol
          alias_is_named =
        some ⟨st.root_node, st.index +
          (entries language include_all t start_pos is_root alias_symbol alias_is_named).length,
          st.writes⟩) ∧
    (∀ cs aseq st pos ci,
      ts_ptree_build_children language include_all true aseq cs st pos ci =
        some ⟨st.root_node, st.index +
          (entries_children language include_all aseq cs pos ci).length, st.writes⟩) := by
  apply subtree_induction
  · intro st start_pos is_root a an
    simp [ts_ptree_build__, entries]
  · intro d cs ih st start_pos is_root a an
    rw [build_node_eq, entries_node_eq]
    by_cases hs : (effective_symbol d a == language.sym_end) = true
    · simp [hs]
    · simp only [hs, if_false]
      by_cases hr : (node_flags d cs.length is_root include_all an).is_rule_node = true
      · rw [emit_own_count, own_entry_rule _ _ _ _ hr]
        simp only [Option.bind_eq_bind, Option.some_bind, ih]
        simp [emit_end, hr, PState.bump]
        omega
      · rw [emit_own_count]
        simp only [Option.bind_eq_bind, Option.some_bind, ih]
        simp [emit_end, hr, PState.bump]
        omega
  · intro aseq st pos ci
    simp [ts_ptree_build_children, entries_children]
  · intro c cs ihc ihcs aseq st pos ci
    rw [build_children_cons, entries_children_cons, ihc]
    simp only [Option.bind_eq_bind, Option.some_bind, ihcs]
    simp; omega

theorem set_mid (pre : List Nat) (x w : Nat) (r : List Nat) :
    (pre ++ x :: r).set pre.length w = pre ++ w :: r := by
  induction pre with
  | nil => rfl
  | cons p pre ih => simp [ih]

theorem getD_mid (pre : List Nat) (x : Nat) (r : List Nat) :
    (pre ++ x :: r).getD pre.length 0 = x := by
  induction pre with
  | nil => rfl
  | cons p pre ih => simpa using ih

/-- A store into the slot that follows the prefix `pre`. -/
theorem store_mid (st : PState) (pre : List Nat) (x : Nat) (r : List Nat) (w : Nat)
    (h : st.root_node = pre ++ x :: r) :
    st.store pre.length w = some ⟨pre ++ w :: r, st.index, st.writes ++ [pre.length]⟩ := by
  unfold PState.store
  rw [h, set_mid]
  simp

theorem drop_cons_of_lt (l : List Nat) (n : Nat) (h : n < l.length) :
    ∃ y, l.drop n = y :: l.drop (n + 1) := by
  exact ⟨l[n], List.drop_eq_getElem_cons h⟩

theorem build_write (language : TSLanguage) (include_all : Bool) :
    (∀ t st pre rest start_pos is_root alias_symbol alias_is_named,
      st.root_node = pre ++ rest → st.index = pre.length →
      (entries language include_all t start_pos is_root alias_symbol alias_is_named).length ≤
        rest.length →
      WritesTo (ts_ptree_build__ language include_all false t st start_pos is_root alias_symbol
          alias_is_named) st pre rest
        (entries language include_all t start_pos is_root alias_symbol alias_is_named)) ∧
    (∀ cs aseq st pre rest pos ci,
      st.root_node = pre ++ rest → st.index = pre.length →
      (entries_children language include_all aseq cs pos ci).length ≤ rest.length →
      WritesTo (ts_ptree_build_children language include_all false aseq cs st pos ci) st pre rest
        (entries_children language include_all aseq cs pos ci)) := by
  apply subtree_induction
  · intro st pre rest start_pos is_root a an hb hi _
    refine ⟨[], ?_, by simp, by intro i h1 h2; simp [entries] at h2; omega⟩
    cases st
    simp_all [ts_ptree_build__, entries]
  · intro d cs ih st pre rest start_pos is_root a an hb hi hlen
    rw [build_node_eq]
    rw [entries_node_eq] at hlen ⊢
    by_cases hs : (effective_symbol d a == language.sym_end) = true
    · simp only [hs, if_true]
      refine ⟨[], ?_, by simp, by intro i h1 h2; simp at h2; omega⟩
      cases st
      simp_all
    · simp only [hs, Bool.false_eq_true, if_false] at hlen ⊢
      generalize hf : node_flags d cs.length is_root include_all an = f at hlen ⊢
      generalize hsym : effective_symbol d a = sym at hlen ⊢
      generalize hCS : entries_children language include_all
        (language.alias_sequence d.alias_sequence_id) cs start_pos 0 = CS at hlen ⊢
      rw [emit_own_write]
      by_cases hr : f.is_rule_node = true
      · simp only [hr, if_true] at hlen ⊢
        rw [own_entry_rule _ _ _ _ hr]
        simp only [List.length_cons, List.length_append, List.length_nil] at hlen
        obtain ⟨x, rest1, rfl⟩ : ∃ x rest1, rest = x :: rest1 := by
          cases rest with
          | nil => simp at hlen
          | cons x r => exact ⟨x, r, rfl⟩
        simp only [List.length_cons] at hlen
        rw [hi]
        dsimp only
        rw [store_mid st pre x rest1 _ hb]
        simp only [Option.map_some', Option.bind_eq_bind, Option.some_bind, PState.bump]
        obtain ⟨wl, h2, h2a, h2b⟩ := ih (language.alias_sequence d.alias_sequence_id)
          ⟨pre ++ PNODE_START_RULE_NODE sym :: rest1, st.index + 1, st.writes ++ [pre.length]⟩
          (pre ++ [PNODE_START_RULE_NODE sym]) rest1 start_pos 0 (by simp) (by simp [hi])
          (by rw [hCS]; omega)
        rw [hCS] at h2 h2a h2b
        rw [h2]
        simp only [Option.some_bind]
        obtain ⟨y, hy⟩ := drop_cons_of_lt rest1 CS.length (by omega)
        unfold emit_end
        simp only [hr, Bool.not_false, if_true]
        have hidx : (pre ++ [PNODE_START_RULE_NODE sym]).length + CS.length - pre.length =
            CS.length + 1 := by simp; omega
        simp only [hidx]
        have hbuf : pre ++ [PNODE_START_RULE_NODE sym] ++ (CS ++ List.drop CS.length rest1) =
            (pre ++ [PNODE_START_RULE_NODE sym] ++ CS) ++ y :: List.drop (CS.length + 1) rest1 := by
          rw [hy]; simp
        have hlen2 : (pre ++ [PNODE_START_RULE_NODE sym]).length + CS.length =
            (pre ++ [PNODE_START_RULE_NODE sym] ++ CS).length := by simp; omega
        rw [hlen2, store_mid _ _ y _ _ hbuf]
        simp only [Option.some_bind]
        have hbuf2 : pre ++ [PNODE_START_RULE_NODE sym] ++ CS ++
            PNODE_END_RULE_NODE sym ((CS.length + 1) % 2 ^ 32) ::
              List.drop (CS.length + 1) rest1 =
            pre ++ PNODE_START_RULE_NODE sym :: (CS ++
              PNODE_END_RULE_NODE sym ((CS.length + 1) % 2 ^ 32) ::
                List.drop (CS.length + 1) rest1) := by simp
        rw [store_mid _ pre (PNODE_START_RULE_NODE sym) _ _ hbuf2]
        simp only [hbuf2, getD_mid, Option.map_some', PState.bump]
        refine ⟨[pre.length] ++ wl ++ [pre.length + 1 + CS.length, pre.length], ?_, ?_, ?_⟩
        · simp [Nat.add_assoc, Nat.add_comm, Nat.add_left_comm]
        · intro i hi'
          simp only [List.length_cons, List.length_append, List.length_nil]
          simp only [List.mem_append, List.mem_cons, List.mem_singleton, List.not_mem_nil,
            or_false] at hi'
          rcases hi' with (h | h) | h | h
          · omega
          · have := h2a i h; simp only [List.length_append, List.length_cons,
              List.length_nil] at this; omega
          · omega
          · omega
        · intro i hi1 hi2
          simp only [List.length_cons, List.length_append, List.length_nil] at hi2
          simp only [List.mem_append, List.mem_cons, List.mem_singleton, List.not_mem_nil,
            or_false]
          by_cases h0 : i = pre.length
          · exact Or.inl (Or.inl h0)
          · by_cases h1 : i = pre.length + 1 + CS.length
            · exact Or.inr (Or.inl h1)
            · refine Or.inl (Or.inr (h2b i ?_ ?_))
              · simp only [List.length_append, List.length_cons, List.length_nil]; omega
              · simp only [List.length_append, List.length_cons, List.length_nil]; omega
      · have hr' : f.is_rule_node = false := by simpa using hr
        simp only [hr', Bool.false_eq_true, if_false] at hlen ⊢
        cases hown : own_entry d f sym start_pos with
        | none =>
          rw [hown] at hlen
          simp only [Option.toList_none, List.nil_append] at hlen ⊢
          simp only [Option.bind_eq_bind, Option.some_bind]
          obtain ⟨wl, h2, h2a, h2b⟩ := ih (language.alias_sequence d.alias_sequence_id)
            st pre rest start_pos 0 hb hi (by rw [hCS]; omega)
          rw [hCS] at h2 h2a h2b
          rw [h2]
          simp only [Option.some_bind, emit_end, hr', Bool.not_false, if_true, Bool.false_eq_true,
            if_false]
          exact ⟨wl, rfl, h2a, h2b⟩
        | some w =>
          rw [hown] at hlen
          simp only [Option.toList_some, List.singleton_append, List.length_cons] at hlen ⊢
          obtain ⟨x, rest1, rfl⟩ : ∃ x rest1, rest = x :: rest1 := by
            cases rest with
            | nil => simp at hlen
            | cons x r => exact ⟨x, r, rfl⟩
          simp only [List.length_cons] at hlen
          rw [hi, store_mid st pre x rest1 _ hb]
          simp only [Option.map_some', Option.bind_eq_bind, Option.some_bind, PState.bump]
          obtain ⟨wl, h2, h2a, h2b⟩ := ih (language.alias_sequence d.alias_sequence_id)
            ⟨pre ++ w :: rest1, st.index + 1, st.writes ++ [pre.length]⟩
            (pre ++ [w]) rest1 start_pos 0 (by simp) (by simp [hi])
            (by rw [hCS]; omega)
          rw [hCS] at h2 h2a h2b
          rw [h2]
          simp only [Option.some_bind, emit_end, hr', Bool.not_false, if_true, Bool.false_eq_true,
            if_false]
          refine ⟨[pre.length] ++ wl, ?_, ?_, ?_⟩
          · simp [Nat.add_assoc, Nat.add_comm, Nat.add_left_comm]
          · intro i hi'
            simp only [List.length_cons]
            simp only [List.mem_append, List.mem_singleton] at hi'
            rcases hi' with h | h
            · omega
            · have := h2a i h; simp only [List.length_append, List.length_cons,
                List.length_nil] at this; omega
          · intro i hi1 hi2
            simp only [List.length_cons] at hi2
            simp only [List.mem_append, List.mem_singleton]
            by_cases h0 : i = pre.length
            · exact Or.inl h0
            · refine Or.inr (h2b i ?_ ?_)
              · simp only [List.length_append, List.length_cons, List.length_nil]; omega
              · simp only [List.length_append, List.length_cons, List.length_nil]; omega
  · intro aseq st pre rest pos ci hb hi _
    refine ⟨[], ?_, by simp, by intro i h1 h2; simp [entries_children] at h2; omega⟩
    cases st
    simp_all [ts_ptree_build_children, entries_children]
  · intro c cs ihc ihcs aseq st pre rest pos ci hb hi hlen
    rw [build_children_cons]
    rw [entries_children_cons] at hlen ⊢
    simp only [List.length_append] at hlen
    generalize (if ts_subtree_extra c then 0 else child_alias_symbol aseq ci) = A at hlen ⊢
    generalize (if ts_subtree_extra c then false
          else child_alias_is_named language (child_alias_symbol aseq ci)) = AN at hlen ⊢
    generalize (if ts_subtree_extra c then ci else (ci + 1) % 2 ^ 32) = CI at hlen ⊢
    generalize (length_add (length_add pos (ts_subtree_padding c)) (ts_subtree_size c)) = P
      at hlen ⊢
    generalize hE1 : entries language include_all c pos false A AN = E1 at hlen
    generalize hE2 : entries_children language include_all aseq cs P CI = E2 at hlen
    obtain ⟨wl1, h1, h1a, h1b⟩ := ihc st pre rest pos false A AN hb hi (by rw [hE1]; omega)
    rw [hE1] at h1 h1a h1b
    rw [h1]
    simp only [Option.bind_eq_bind, Option.some_bind]
    obtain ⟨wl2, h2, h2a, h2b⟩ := ihcs aseq
      ⟨pre ++ (E1 ++ rest.drop E1.length), pre.length + E1.length, st.writes ++ wl1⟩
      (pre ++ E1) (rest.drop E1.length) P CI (by simp) (by simp)
      (by rw [hE2]; simp; omega)
    rw [hE2] at h2 h2a h2b
    rw [h2]
    refine ⟨wl1 ++ wl2, ?_, ?_, ?_⟩
    · simp [Nat.add_assoc, Nat.add_comm]
    · intro i hi'
      rcases List.mem_append.mp hi' with h | h
      · have := h1a i h; simp only [List.length_append]; omega
      · have := h2a i h; simp only [List.length_append] at this ⊢; omega
    · intro i hi1 hi2
      simp only [List.length_append] at hi2
      by_cases hlt : i < pre.length + E1.length
      · exact List.mem_append.mpr (Or.inl (h1b i hi1 hlt))
      · refine List.mem_append.mpr (Or.inr (h2b i ?_ ?_))
        · simp only [List.length_append]; omega
        · simp only [List.length_append]; omega

/-- The counting pass from the initial state of `ts_ptree_build_`. -/
theorem count_pass_eq (language : TSLanguage) (include_all : Bool) (t : Subtree)
    (start_pos : Length) (is_root : Bool) (a : Nat) (an : Bool) :
    ts_ptree_build__ language include_all true t ⟨[], 0, []⟩ start_pos is_root a an =
      some ⟨[], (entries language include_all t start_pos is_root a an).length, []⟩ := by
  rw [(build_count language include_all).1]
  simp

/-- The writing pass into a zero-initialised buffer of exactly the counted
size. -/
theorem write_pass_eq (language : TSLanguage) (include_all : Bool) (t : Subtree)
    (start_pos : Length) (is_root : Bool) (a : Nat) (an : Bool) :
    ∃ wl, ts_ptree_build__ language include_all false t
        ⟨List.replicate (entries language include_all t start_pos is_root a an).length 0, 0, []⟩
        start_pos is_root a an =
      some ⟨entries language include_all t start_pos is_root a an,
        (entries language include_all t start_pos is_root a an).length, wl⟩ ∧
      (∀ i, i ∈ wl ↔ i < (entries language include_all t start_pos is_root a an).length) := by
  obtain ⟨wl, h, ha, hb⟩ := (build_write language include_all).1 t
    ⟨List.replicate (entries language include_all t start_pos is_root a an).length 0, 0, []⟩
    [] (List.replicate (entries language include_all t start_pos is_root a an).length 0)
    start_pos is_root a an (by simp) (by simp) (by simp)
  refine ⟨wl, ?_, ?_⟩
  · rw [h]; simp
  · intro i
    constructor
    · intro hi; have := ha i hi; simpa using this.2
    · intro hi; exact hb i (by simp) (by simpa using hi)

/-- The result of `ts_ptree_build_`: the entries of the root, walked from
position zero as the root and without an alias. -/
theorem build_eq (tree : TSTree) (include_all : Bool) :
    ts_ptree_build_ tree include_all =
      some ⟨tree, entries tree.language include_all tree.root length_zero true 0 false,
        (entries tree.language include_all tree.root length_zero true 0 false).length⟩ := by
  unfold ts_ptree_build_
  obtain ⟨wl, h, _⟩ := write_pass_eq tree.language include_all tree.root length_zero true 0 false
  simp only [count_pass_eq, Option.some_bind, h, Option.map_some', ts_ptree_new]

theorem counted_eq (language : TSLanguage) (include_all : Bool) (t : Subtree)
    (start_pos : Length) (is_root : Bool) (a : Nat) (an : Bool) :
    counted language include_all t start_pos is_root a an =
      (entries language include_all t start_pos is_root a an).length := by
  unfold counted
  rw [count_pass_eq]

/-- The writing pass from any state with enough room after the cursor. -/
theorem build_write_at (language : TSLanguage) (include_all : Bool) (t : Subtree) (st : PState)
    (start_pos : Length) (is_root : Bool) (a : Nat) (an : Bool)
    (h : st.index + counted language include_all t start_pos is_root a an ≤
      st.root_node.length) :
    WritesTo (ts_ptree_build__ language include_all false t st start_pos is_root a an) st
      (st.root_node.take st.index) (st.root_node.drop st.index)
      (entries language include_all t start_pos is_root a an) := by
  rw [counted_eq] at h
  apply (build_write language include_all).1
  · simp
  · simp; omega
  · simp; omega

theorem counted_children_eq (language : TSLanguage) (include_all : Bool)
    (aseq : Option (Nat → Nat)) (cs : List Subtree) (pos : Length) (ci : Nat) :
    counted_children language include_all aseq cs pos ci =
      (entries_children language include_all aseq cs pos ci).length := by
  unfold counted_children
  rw [(build_count language include_all).2]
  simp

/-- The slice a subtree contributes is its list of entries. -/
theorem contributed_eq (language : TSLanguage) (include_all : Bool) (t : Subtree)
    (start_pos : Length) (is_root : Bool) (a : Nat) (an : Bool) :
    contributed language include_all t start_pos is_root a an =
      entries language include_all t start_pos is_root a an := by
  unfold contributed
  rw [counted_eq]
  obtain ⟨wl, h, _⟩ := write_pass_eq language include_all t start_pos is_root a an
  rw [h]

/-- The slice a list of children contributes is its list of entries. -/
theorem contributed_children_eq (language : TSLanguage) (include_all : Bool)
    (aseq : Option (Nat → Nat)) (cs : List Subtree) (pos : Length) (ci : Nat) :
    contributed_children language include_all aseq cs pos ci =
      entries_children language include_all aseq cs pos ci := by
  unfold contributed_children
  rw [counted_children_eq]
  obtain ⟨wl, h, _, _⟩ := (build_write language include_all).2 cs aseq
    ⟨List.replicate (entries_children language include_all aseq cs pos ci).length 0, 0, []⟩
    [] (List.replicate (entries_children language include_all aseq cs pos ci).length 0)
    pos ci (by simp) (by simp) (by simp)
  rw [h]
  simp

theorem get_at_cursor (l : List Nat) (i w : Nat) (r : List Nat) (h : i ≤ l.length) :
    (l.take i ++ (w :: r)).get? i = some w := by
  have hlen : (l.take i).length = i := by simp [h]
  rw [List.get?_eq_getElem?, List.getElem?_append_right (by omega)]
  simp [hlen]

/-! ## Count consistency (C1) -/

/-- C1 (count consistency): for every tree, language and `include_all`, the
counting pass started at index 0 returns a cursor `c.index`; the writing pass
started at index 0 on the zero-initialised buffer of `c.index` slots returns the
same cursor, has stored to exactly `c.index` distinct slots, and that value is
the `length` of the `PTree` returned by `ts_ptree_build_` (whose array has that
many slots). -/
theorem count_consistency (tree : TSTree) (include_all : Bool) :
    ∃ c w p,
      ts_ptree_build__ tree.language include_all true tree.root ⟨[], 0, []⟩ length_zero true 0
        false = some c ∧
      ts_ptree_build__ tree.language include_all false tree.root
        ⟨List.replicate c.index 0, 0, []⟩ length_zero true 0 false = some w ∧
      w.index = c.index ∧
      w.writes.toFinset.card = c.index ∧
      ts_ptree_build_ tree include_all = some p ∧
      p.length = c.index ∧ p.root_node = w.root_node ∧ p.root_node.length = c.index := by
  obtain ⟨wl, h, hmem⟩ :=
    write_pass_eq tree.language include_all tree.root length_zero true 0 false
  refine ⟨_, _, _, count_pass_eq _ _ _ _ _ _ _, h, rfl, ?_, build_eq tree include_all, rfl, rfl,
    rfl⟩
  have : wl.toFinset = Finset.range
      (entries tree.language include_all tree.root length_zero true 0 false).length := by
    ext i; simp [hmem]
  simp [this]

/-! ## Span integrity (C2) -/

theorem forest_append {a b : List Nat} (ha : PackedForest a) (hb : PackedForest b) :
    PackedForest (a ++ b) := by
  induction ha with
  | nil => simpa using hb
  | leaf w rest h1 h2 _ ih => exact PackedForest.leaf w _ h1 h2 ih
  | rule s n cs rest hcs _ hn _ ih =>
    have := PackedForest.rule s n cs (rest ++ b) hcs ih hn
    simpa using this

/-- A word stored for a node that is no rule node is no rule marker. -/
theorem own_entry_not_marker (d : SubtreeData) (f : NodeFlags) (symbol : Nat)
    (start_pos : Length) (hr : f.is_rule_node = false) (w : Nat)
    (hw : own_entry d f symbol start_pos = some w) :
    is_rule_start w = false ∧ is_rule_end w = false := by
  unfold own_entry at hw
  simp only [hr, Bool.false_eq_true, if_false] at hw
  split_ifs at hw <;> simp at hw <;> subst hw <;>
    simp [is_rule_start_token, is_rule_end_token, is_rule_start_error, is_rule_end_error]

/-- Every list of entries has the shape `PackedForest`. -/
theorem entries_forest (language : TSLanguage) (include_all : Bool) :
    (∀ t start_pos is_root a an,
      PackedForest (entries language include_all t start_pos is_root a an)) ∧
    (∀ cs aseq pos ci, PackedForest (entries_children language include_all aseq cs pos ci)) := by
  apply subtree_induction
  · intro start_pos is_root a an
    simp only [entries]
    exact PackedForest.nil
  · intro d cs ih start_pos is_root a an
    rw [entries_node_eq]
    by_cases hs : (effective_symbol d a == language.sym_end) = true
    · simp only [hs, if_true]; exact PackedForest.nil
    · simp only [hs, Bool.false_eq_true, if_false]
      have hcs := ih (language.alias_sequence d.alias_sequence_id) start_pos 0
      by_cases hr : (node_flags d cs.length is_root include_all an).is_rule_node = true
      · simp only [hr, if_true]
        exact PackedForest.rule _ _ _ [] hcs PackedForest.nil (by omega)
      · have hr' : (node_flags d cs.length is_root include_all an).is_rule_node = false := by
          simpa using hr
        simp only [hr', Bool.false_eq_true, if_false]
        cases hown : own_entry d (node_flags d cs.length is_root include_all an)
            (effective_symbol d a) start_pos with
        | none => simpa using hcs
        | some w =>
          obtain ⟨h1, h2⟩ := own_entry_not_marker _ _ _ _ hr' w hown
          simp only [Option.toList_some, List.singleton_append]
          exact PackedForest.leaf w _ h1 h2 hcs
  · intro aseq pos ci
    simp only [entries_children]
    exact PackedForest.nil
  · intro c cs ihc ihcs aseq pos ci
    rw [entries_children_cons]
    exact forest_append (ihc _ _ _ _) (ihcs _ _ _)

theorem marker_depth_append (a b : List Nat) (depth : Nat) :
    marker_depth (a ++ b) depth = (marker_depth a depth).bind (marker_depth b) := by
  induction a generalizing depth with
  | nil => simp [marker_depth]
  | cons w ws ih =>
    simp only [List.cons_append, marker_depth]
    split_ifs
    · exact ih _
    · cases depth with
      | zero => simp
      | succ k => exact ih _
    · exact ih _

/-- Reading a `PackedForest` leaves the nesting depth where it was. -/
theorem forest_depth {l : List Nat} (h : PackedForest l) :
    ∀ depth, marker_depth l depth = some depth := by
  induction h with
  | nil => intro depth; rfl
  | leaf w rest h1 h2 _ ih =>
    intro depth
    simp only [marker_depth, h1, h2, Bool.false_eq_true, if_false]
    exact ih depth
  | rule s n cs rest _ _ _ ihcs ihrest =>
    intro depth
    simp only [marker_depth, is_rule_start_start, if_true]
    rw [marker_depth_append, ihcs]
    simp only [Option.some_bind, marker_depth, is_rule_start_end, is_rule_end_end,
      Bool.false_eq_true, if_false, if_true]
    exact ihrest depth

theorem between_append_left (a b : List Nat) (i j : Nat) (hij : i < j) (hj : j < a.length) :
    between (a ++ b) i j = between a i j := by
  unfold between
  rw [List.drop_append_of_le_length (by omega),
    List.take_append_of_le_length (by simp; omega)]

theorem between_append_right (pre l : List Nat) (i j : Nat) :
    between (pre ++ l) (pre.length + i) (pre.length + j) = between l i j := by
  unfold between
  rw [show pre.length + i + 1 = pre.length + (i + 1) by omega, List.drop_append,
    show pre.length + j - (pre.length + i) - 1 = j - i - 1 by omega]

theorem getD_append_shift (pre l : List Nat) (i : Nat) :
    (pre ++ l).getD (pre.length + i) 0 = l.getD i 0 := by
  rw [List.getD_append_right _ _ _ _ (by omega)]
  simp

theorem span_match_extend (a b : List Nat) (i j : Nat) (h : span_match a i j) :
    span_match (a ++ b) i j := by
  obtain ⟨⟨hij, hj, hs, he, hb⟩, h1, h2⟩ := h
  have hi : i < a.length := by omega
  refine ⟨⟨hij, by simp; omega, ?_, ?_, ?_⟩, ?_, ?_⟩
  · rwa [List.getD_append _ _ _ _ hi]
  · rwa [List.getD_append _ _ _ _ hj]
  · unfold balanced; rw [between_append_left a b i j hij hj]; exact hb
  · rwa [List.getD_append _ _ _ _ hi]
  · rwa [List.getD_append _ _ _ _ hj]

theorem span_match_shift (pre l : List Nat) (i j : Nat) (h : span_match l i j) :
    span_match (pre ++ l) (pre.length + i) (pre.length + j) := by
  obtain ⟨⟨hij, hj, hs, he, hb⟩, h1, h2⟩ := h
  have hd : pre.length + j - (pre.length + i) = j - i := by omega
  refine ⟨⟨by omega, by simp; omega, ?_, ?_, ?_⟩, ?_, ?_⟩
  · rwa [getD_append_shift]
  · rwa [getD_append_shift]
  · unfold balanced; rw [between_append_right]; exact hb
  · rw [getD_append_shift, hd]; exact h1
  · rw [getD_append_shift, hd]; exact h2

/-- In a `PackedForest` every start marker has a matching end marker at the
distance recorded (mod 256) in both markers. -/
theorem forest_span {l : List Nat} (h : PackedForest l) :
    ∀ i, i < l.length → is_rule_start (l.getD i 0) = true → ∃ j, span_match l i j := by
  induction h with
  | nil => intro i hi; simp at hi
  | leaf w rest h1 h2 _ ih =>
    intro i hi hs
    cases i with
    | zero => simp [h1] at hs
    | succ k =>
      obtain ⟨j, hj⟩ := ih k (by simpa using hi) (by simpa using hs)
      refine ⟨1 + j, ?_⟩
      have := span_match_shift [w] rest k j hj
      simpa [Nat.add_comm] using this
  | rule s n cs rest hcs _ hn ihcs ihrest =>
    intro i hi hs
    rcases Nat.lt_trichotomy i (cs.length + 1) with hlt | heq | hgt
    · cases i with
      | zero =>
        refine ⟨cs.length + 1, ⟨by omega, by simp, by simpa using hs, ?_, ?_⟩, ?_, ?_⟩
        · rw [List.getD_cons_succ, List.getD_append_right _ _ _ _ (by omega)]
          simp [is_rule_end_end]
        · unfold balanced between
          simp only [List.drop_succ_cons, List.drop_zero, Nat.sub_zero, Nat.add_sub_cancel,
            List.take_left]
          exact forest_depth hcs 0
        · rw [List.getD_cons_zero, span_length_field_start]; simpa using hn
        · rw [List.getD_cons_succ, List.getD_append_right _ _ _ _ (by omega)]
          simp only [Nat.sub_self, List.getD_cons_zero, span_length_field_end]
          simpa using hn
      | succ k =>
        have hk : k < cs.length := by omega
        have hs' : is_rule_start (cs.getD k 0) = true := by
          rw [List.getD_cons_succ, List.getD_append _ _ _ _ hk] at hs
          exact hs
        obtain ⟨j, hj⟩ := ihcs k hk hs'
        have h1 := span_match_extend cs (PNODE_END_RULE_NODE s n :: rest) k j hj
        have h2 := span_match_shift
          [PNODE_START_RULE_NODE_LENGTH (PNODE_START_RULE_NODE s) n] _ k j h1
        exact ⟨1 + j, by simpa [Nat.add_comm] using h2⟩
    · subst heq
      rw [List.getD_cons_succ, List.getD_append_right _ _ _ _ (by omega)] at hs
      simp [is_rule_start_end] at hs
    · obtain ⟨k, rfl⟩ : ∃ k, i = (cs.length + 2) + k := ⟨i - (cs.length + 2), by omega⟩
      have hl : PNODE_START_RULE_NODE_LENGTH (PNODE_START_RULE_NODE s) n ::
          (cs ++ PNODE_END_RULE_NODE s n :: rest) =
          (PNODE_START_RULE_NODE_LENGTH (PNODE_START_RULE_NODE s) n ::
            (cs ++ [PNODE_END_RULE_NODE s n])) ++ rest := by simp
      have hlen : (PNODE_START_RULE_NODE_LENGTH (PNODE_START_RULE_NODE s) n ::
            (cs ++ [PNODE_END_RULE_NODE s n])).length = cs.length + 2 := by simp
      rw [hl] at hi hs ⊢
      rw [← hlen] at hi hs ⊢
      rw [getD_append_shift] at hs
      simp only [List.length_append] at hi
      obtain ⟨j, hj⟩ := ihrest k (by omega) hs
      exact ⟨_, span_match_shift _ rest k j hj⟩

theorem between_split (l : List Nat) (i j k : Nat) (hij : i < j) (hjk : j < k)
    (hj : j < l.length) :
    between l i k = between l i j ++ l.getD j 0 :: between l j k := by
  unfold between
  have h1 : k - i - 1 = (j - i - 1) + ((k - j - 1) + 1) := by omega
  rw [h1, List.take_add, List.drop_drop]
  have h2 : i + 1 + (j - i - 1) = j := by omega
  rw [h2, List.drop_eq_getElem_cons hj, List.take_succ_cons, List.getD_eq_getElem _ _ hj]

/-- A start marker has at most one matching end marker. -/
theorem matching_end_unique (l : List Nat) (i j k : Nat) (hj : matching_end l i j)
    (hk : matching_end l i k) : k = j := by
  have key : ∀ a b, matching_end l i a → matching_end l i b → ¬ a < b := by
    intro a b ha hb hab
    obtain ⟨hia, hal, _, hea, hba⟩ := ha
    obtain ⟨_, _, _, _, hbb⟩ := hb
    unfold balanced at hba hbb
    rw [between_split l i a b hia hab hal, marker_depth_append, hba] at hbb
    have hns : is_rule_start (l.getD a 0) = false := by
      cases h : is_rule_start (l.getD a 0)
      · rfl
      · have := not_start_and_end _ h; rw [hea] at this; cases this
    simp only [Option.some_bind, marker_depth, hns, hea, Bool.false_eq_true, if_false,
      if_true] at hbb
    cases hbb
  have h1 := key j k hj hk
  have h2 := key k j hk hj
  omega

theorem entries_children_replicate (n : Nat) :
    ∀ pos ci, (entries_children plain_language false none
      (List.replicate n (plain_leaf 2 0 1 true true)) pos ci).length = n := by
  induction n with
  | zero => intro pos ci; simp [entries_children]
  | succ n ih =>
    intro pos ci
    rw [List.replicate_succ, entries_children_cons]
    have hx : ts_subtree_extra (plain_leaf 2 0 1 true true) = false := rfl
    simp only [hx, Bool.false_eq_true, if_false, child_alias_symbol, child_alias_is_named,
      bne_self_eq_false, List.length_append, ih]
    rw [entries_plain_leaf plain_language false 2 0 1 true true pos (by decide)]
    simp
    omega

theorem rule_root_entries (cs : List Subtree) (hne : cs.length ≠ 0) :
    entries plain_language false
        (.node ⟨1, ⟨0⟩, ⟨255⟩, true, true, false, false, false, 0⟩ cs) length_zero true 0 false =
      PNODE_START_RULE_NODE_LENGTH (PNODE_START_RULE_NODE 1)
          (((entries_children plain_language false none cs length_zero 0).length + 1) % 2 ^ 32) ::
        (entries_children plain_language false none cs length_zero 0 ++
          [PNODE_END_RULE_NODE 1
            (((entries_children plain_language false none cs length_zero 0).length + 1) %
              2 ^ 32)]) := by
  rw [entries_node_eq]
  have h1 : (effective_symbol ⟨1, ⟨0⟩, ⟨255⟩, true, true, false, false, false, 0⟩ 0 ==
      plain_language.sym_end) = false := by decide
  have h2 : (node_flags ⟨1, ⟨0⟩, ⟨255⟩, true, true, false, false, false, 0⟩
      cs.length true false false).is_rule_node = true := by simp [node_flags, hne]
  simp only [h1, h2, Bool.false_eq_true, if_false, if_true]
  rfl

theorem wide_tree_entries :
    ∃ cs, cs.length = 255 ∧
      entries wide_tree.language false wide_tree.root length_zero true 0 false =
        PNODE_START_RULE_NODE_LENGTH (PNODE_START_RULE_NODE 1) 256 ::
          (cs ++ [PNODE_END_RULE_NODE 1 256]) := by
  refine ⟨entries_children plain_language false none
    (List.replicate 255 (plain_leaf 2 0 1 true true)) length_zero 0,
    entries_children_replicate 255 _ _, ?_⟩
  have h := rule_root_entries (List.replicate 255 (plain_leaf 2 0 1 true true))
    (by rw [List.length_replicate]; decide)
  rw [entries_children_replicate 255] at h
  exact h

/-- C2 as stated fails.  For a rule node with one token child the array is
`[start, token, end]`, the only end marker after index 0 is at index 2, and the
span-length field of the start marker is 2, not `2 - 0 + 1`.  For a rule node
with 255 token children the array has 257 entries and the span-length field of
the start marker is 0, which is neither `j - i + 1` nor `j - i` for any
`j > 0`. -/
theorem span_plus_one_fails :
    (∃ p, ts_ptree_build one_token_tree false = some p ∧
      p.root_node = [PNODE_START_RULE_NODE_LENGTH (PNODE_START_RULE_NODE 1) 2,
        PNODE_TOKEN_NODE 0 2 1, PNODE_END_RULE_NODE 1 2] ∧
      ¬ span_integrity p.root_node (fun i j => j - i + 1)) ∧
    (∃ q, ts_ptree_build wide_tree false = some q ∧ q.length = 257 ∧
      span_length_field (q.root_node.getD 0 0) = 0 ∧
      ¬ span_integrity q.root_node (fun i j => j - i + 1) ∧
      ¬ span_integrity q.root_node (fun i j => j - i)) := by
  constructor
  · have harr : entries one_token_tree.language false one_token_tree.root length_zero true 0
        false = [8209, 68719476752, 8217] := by decide
    refine ⟨_, build_eq _ _, ?_, ?_⟩
    · show entries one_token_tree.language false one_token_tree.root length_zero true 0 false = _
      rw [harr]; decide
    · show ¬ span_integrity
        (entries one_token_tree.language false one_token_tree.root length_zero true 0 false) _
      rw [harr]
      intro h
      obtain ⟨j, ⟨h0, hlt, _, he, _⟩, _, hs, _⟩ := h 0 (by decide) (by decide)
      simp only [List.length_cons, List.length_nil] at hlt
      have hj : j = 1 ∨ j = 2 := by omega
      rcases hj with rfl | rfl
      · revert he; decide
      · revert hs; decide
  · obtain ⟨cs, hlen, harr⟩ := wide_tree_entries
    have hfield : span_length_field
        ((PNODE_START_RULE_NODE_LENGTH (PNODE_START_RULE_NODE 1) 256 ::
          (cs ++ [PNODE_END_RULE_NODE 1 256])).getD 0 0) = 0 := by
      rw [List.getD_cons_zero, span_length_field_start]
    have hstart : is_rule_start
        ((PNODE_START_RULE_NODE_LENGTH (PNODE_START_RULE_NODE 1) 256 ::
          (cs ++ [PNODE_END_RULE_NODE 1 256])).getD 0 0) = true := by
      rw [List.getD_cons_zero, is_rule_start_start]
    have hb := build_eq wide_tree false
    rw [harr] at hb
    refine ⟨_, hb, ?_, ?_, ?_, ?_⟩
    · simp [hlen]
    · exact hfield
    · intro h
      obtain ⟨j, ⟨h0, _⟩, _, hs, _⟩ := h 0 (by simp) hstart
      dsimp only at hs
      rw [hfield] at hs
      omega
    · intro h
      obtain ⟨j, ⟨h0, _⟩, _, hs, _⟩ := h 0 (by simp) hstart
      dsimp only at hs
      rw [hfield] at hs
      omega

/-- C2 as amended: in the array built for any tree and `include_all` value,
every rule start marker at index `i` has exactly one matching rule end marker
at an index `j > i`, and the span-length field (bits 12..19) of both markers
equals `(j - i) mod 256`. -/
theorem span_integrity_distance (tree : TSTree) (include_all : Bool) :
    ∃ p, ts_ptree_build tree include_all = some p ∧
      span_integrity p.root_node (fun i j => (j - i) % 256) := by
  refine ⟨_, build_eq tree include_all, ?_⟩
  intro i hi hs
  have hf := (entries_forest tree.language include_all).1 tree.root length_zero true 0 false
  obtain ⟨j, hm, h1, h2⟩ := forest_span hf i hi hs
  exact ⟨j, hm, fun k hk => matching_end_unique _ i j k hm hk, h1, h2⟩

/-! ## Transparency (C3) -/

/-- A node that is neither visible nor an error contributes what the loop over
its children contributes, in both passes. -/
theorem transparent_non_error (language : TSLanguage) (include_all pre_count : Bool)
    (d : SubtreeData) (cs : List Subtree) (st : PState) (start_pos : Length) (is_root : Bool)
    (a : Nat) (an : Bool) (hsym : effective_symbol d a ≠ language.sym_end)
    (hvis : (include_all || is_root || d.is_missing || (d.visible && d.named) || an) = false)
    (herr : d.is_error = false) :
    ts_ptree_build__ language include_all pre_count (.node d cs) st start_pos is_root a an =
      ts_ptree_build_children language include_all pre_count
        (language.alias_sequence d.alias_sequence_id) cs st start_pos 0 := by
  rw [build_node_eq]
  have hs : (effective_symbol d a == language.sym_end) = false := by simpa using hsym
  have hm : d.is_missing = false := by
    cases h : d.is_missing
    · rfl
    · simp [h] at hvis
  have hf : node_flags d cs.length is_root include_all an =
      ⟨false, false, false, false, false, false⟩ := by
    unfold node_flags
    rw [hm] at hvis
    simp only [herr, hm, hvis, Bool.false_eq_true, if_false]
  simp only [hs, Bool.false_eq_true, if_false, hf]
  cases pre_count <;>
    simp [emit_own, emit_end]

/-- C3 (transparency): for every node of a source tree (an error node carries
the flags of the error symbol, visible and named) whose effective symbol is not
the end-of-input sentinel and for which
`include_all || is_root || missing || (visible && named) || alias_is_named` is
false, the `visible` decision of `ts_ptree_build__` is false, no entry is
emitted for the node itself (neither an own word nor an end marker), both passes
do on the node exactly what the loop over its children does from the node's own
start position, and the entries the node contributes are exactly the entries its
children contribute, walked from that position. -/
theorem transparency (language : TSLanguage) (include_all pre_count : Bool)
    (d : SubtreeData) (cs : List Subtree) (st : PState) (start_pos : Length) (is_root : Bool)
    (a : Nat) (an : Bool)
    (hwf : d.is_error = true → d.visible = true ∧ d.named = true)
    (hsym : effective_symbol d a ≠ language.sym_end)
    (hvis : (include_all || is_root || d.is_missing || (d.visible && d.named) || an) = false) :
    (node_flags d cs.length is_root include_all an).visible = false ∧
    own_entry d (node_flags d cs.length is_root include_all an) (effective_symbol d a)
      start_pos = none ∧
    (node_flags d cs.length is_root include_all an).is_rule_node = false ∧
    ts_ptree_build__ language include_all pre_count (.node d cs) st start_pos is_root a an =
      ts_ptree_build_children language include_all pre_count
        (language.alias_sequence d.alias_sequence_id) cs st start_pos 0 ∧
    counted language include_all (.node d cs) start_pos is_root a an =
      counted_children language include_all (language.alias_sequence d.alias_sequence_id) cs
        start_pos 0 ∧
    contributed language include_all (.node d cs) start_pos is_root a an =
      contributed_children language include_all (language.alias_sequence d.alias_sequence_id)
        cs start_pos 0 := by
  have herr : d.is_error = false := by
    cases he : d.is_error
    · rfl
    · obtain ⟨h1, h2⟩ := hwf he
      simp [h1, h2] at hvis
  have hm : d.is_missing = false := by
    cases h : d.is_missing
    · rfl
    · simp [h] at hvis
  have hf : node_flags d cs.length is_root include_all an =
      ⟨false, false, false, false, false, false⟩ := by
    unfold node_flags
    rw [hm] at hvis
    simp only [herr, hm, hvis, Bool.false_eq_true, if_false]
  have hb : ∀ pc s, ts_ptree_build__ language include_all pc (.node d cs) s start_pos is_root a
      an = ts_ptree_build_children language include_all pc
        (language.alias_sequence d.alias_sequence_id) cs s start_pos 0 :=
    fun pc s => transparent_non_error language include_all pc d cs s start_pos is_root a an hsym
      hvis herr
  have hc : counted language include_all (.node d cs) start_pos is_root a an =
      counted_children language include_all (language.alias_sequence d.alias_sequence_id) cs
        start_pos 0 := by
    unfold counted counted_children
    rw [hb]
  refine ⟨by rw [hf], by rw [hf]; rfl, by rw [hf], hb pre_count st, hc, ?_⟩
  unfold contributed contributed_children
  rw [hc, hb]

/-- The transparency theorem at a hidden wrapper (symbol 9, neither visible nor
named) around one token, walked as a non-root child from byte 1. -/
theorem transparency_witness :
    (node_flags ⟨9, ⟨1⟩, ⟨2⟩, false, false, false, false, false, 0⟩ 1 false false
      false).visible = false ∧
    own_entry ⟨9, ⟨1⟩, ⟨2⟩, false, false, false, false, false, 0⟩
      (node_flags ⟨9, ⟨1⟩, ⟨2⟩, false, false, false, false, false, 0⟩ 1 false false false)
      (effective_symbol ⟨9, ⟨1⟩, ⟨2⟩, false, false, false, false, false, 0⟩ 0) ⟨1⟩ = none ∧
    (node_flags ⟨9, ⟨1⟩, ⟨2⟩, false, false, false, false, false, 0⟩ 1 false false
      false).is_rule_node = false ∧
    ts_ptree_build__ plain_language false false
        (.node ⟨9, ⟨1⟩, ⟨2⟩, false, false, false, false, false, 0⟩ [plain_leaf 3 1 2 true true])
        ⟨[0], 0, []⟩ ⟨1⟩ false 0 false =
      ts_ptree_build_children plain_language false false (plain_language.alias_sequence 0)
        [plain_leaf 3 1 2 true true] ⟨[0], 0, []⟩ ⟨1⟩ 0 ∧
    counted plain_language false
        (.node ⟨9, ⟨1⟩, ⟨2⟩, false, false, false, false, false, 0⟩ [plain_leaf 3 1 2 true true])
        ⟨1⟩ false 0 false =
      counted_children plain_language false (plain_language.alias_sequence 0)
        [plain_leaf 3 1 2 true true] ⟨1⟩ 0 ∧
    contributed plain_language false
        (.node ⟨9, ⟨1⟩, ⟨2⟩, false, false, false, false, false, 0⟩ [plain_leaf 3 1 2 true true])
        ⟨1⟩ false 0 false =
      contributed_children plain_language false (plain_language.alias_sequence 0)
        [plain_leaf 3 1 2 true true] ⟨1⟩ 0 :=
  transparency plain_language false false
    ⟨9, ⟨1⟩, ⟨2⟩, false, false, false, false, false, 0⟩ [plain_leaf 3 1 2 true true]
    ⟨[0], 0, []⟩ ⟨1⟩ false 0 false (by decide) (by decide) (by decide)

/-- The condition on error nodes is needed for transparency: on
`hidden_error_leaf`, a node no source tree holds, walked as a non-root child with
`include_all = false` and no alias, the `visible` decision is false and the
symbol is not the sentinel, and the walker taken alone stores a general-error
word, because `is_error_node` is read before the `if (visible)` test. -/
theorem hidden_error_emits :
    (node_flags ⟨65535, ⟨0⟩, ⟨1⟩, false, false, false, false, true, 0⟩ 0 false false
        false).visible = false ∧
    effective_symbol ⟨65535, ⟨0⟩, ⟨1⟩, false, false, false, false, true, 0⟩ 0 ≠
      plain_language.sym_end ∧
    ts_ptree_build__ plain_language false false hidden_error_leaf ⟨[0], 0, []⟩ ⟨0⟩ false 0 false =
      some ⟨[PNODE_ERROR 0 PNODE_ERROR_GENERAL 1], 1, [0]⟩ ∧
    ts_ptree_build__ plain_language false true hidden_error_leaf ⟨[], 0, []⟩ ⟨0⟩ false 0 false =
      some ⟨[], 1, []⟩ ∧
    contributed plain_language false hidden_error_leaf ⟨0⟩ false 0 false =
      [PNODE_ERROR 0 PNODE_ERROR_GENERAL 1] ∧
    contributed_children plain_language false none [] ⟨0⟩ 0 = [] := by
  decide

/-! ## Classification of a visible node (C4) -/

/-- For a visible node with a non-sentinel symbol, the entries are the ones
the specification lists for its outcome. -/
theorem entries_visible (language : TSLanguage) (include_all : Bool) (d : SubtreeData)
    (cs : List Subtree) (start_pos : Length) (is_root : Bool) (a : Nat) (an : Bool)
    (hsym : effective_symbol d a ≠ language.sym_end)
    (hvis : (include_all || is_root || d.is_missing || (d.visible && d.named) || an) = true) :
    entries language include_all (.node d cs) start_pos is_root a an =
      spec_entries (spec_outcome d cs.length) d (effective_symbol d a) start_pos
        (entries_children language include_all (language.alias_sequence d.alias_sequence_id) cs
          start_pos 0) := by
  rw [entries_node_eq]
  have hs : (effective_symbol d a == language.sym_end) = false := by simpa using hsym
  simp only [hs, Bool.false_eq_true, if_false]
  unfold node_flags spec_outcome
  simp only [hvis, if_true]
  cases cs with
  | nil =>
    cases he : d.is_error <;> cases hm : d.is_missing <;>
      by_cases hz : d.size.bytes = 0 <;>
      simp [he, hm, hz, own_entry, spec_entries, entries_children, Nat.pos_iff_ne_zero]
  | cons c cs =>
    cases he : d.is_error <;> cases hm : d.is_missing <;>
      simp [he, hm, own_entry, spec_entries]

/-- The first word of the specification's entries names the outcome. -/
theorem spec_entries_head (o : Outcome) (d : SubtreeData) (symbol : Nat) (start_pos : Length)
    (cs : List Nat) :
    (spec_entries o d symbol start_pos cs).head?.bind decode_outcome = some o := by
  cases o <;>
    simp [spec_entries, decode_outcome, kind_tag_error, symbol_field_error, kind_tag_token,
      kind_tag_start, PNODE_ERROR_NODE_TYPE, PNODE_ERROR_UNEXPECTED, PNODE_ERROR_MISSING,
      PNODE_ERROR_GENERAL, PNODE_TOKEN_NODE_TYPE, PNODE_RULE_NODE_TYPE]

/-- C4 (classification of a visible node): for a node with non-sentinel
effective symbol and `visible = true`, the writing pass stores exactly the words
of the one outcome that the priority order selects (unexpected error, else
missing error, else general error, else token, else rule pair), the slice
contributed by the children following an error entry and standing between the
two rule markers; the counting pass counts that many entries; and the first
stored word decodes to that outcome and to no other. -/
theorem visible_classification (language : TSLanguage) (include_all : Bool) (d : SubtreeData)
    (cs : List Subtree) (st : PState) (start_pos : Length) (is_root : Bool) (a : Nat) (an : Bool)
    (hsym : effective_symbol d a ≠ language.sym_end)
    (hvis : (include_all || is_root || d.is_missing || (d.visible && d.named) || an) = true)
    (hroom : st.index + counted language include_all (.node d cs) start_pos is_root a an ≤
      st.root_node.length) :
    WritesTo (ts_ptree_build__ language include_all false (.node d cs) st start_pos is_root a an)
      st (st.root_node.take st.index) (st.root_node.drop st.index)
      (spec_entries (spec_outcome d cs.length) d (effective_symbol d a) start_pos
        (contributed_children language include_all
          (language.alias_sequence d.alias_sequence_id) cs start_pos 0)) ∧
    ts_ptree_build__ language include_all true (.node d cs) st start_pos is_root a an =
      some ⟨st.root_node, st.index +
        (spec_entries (spec_outcome d cs.length) d (effective_symbol d a) start_pos
          (contributed_children language include_all
            (language.alias_sequence d.alias_sequence_id) cs start_pos 0)).length, st.writes⟩ ∧
    (spec_entries (spec_outcome d cs.length) d (effective_symbol d a) start_pos
      (contributed_children language include_all (language.alias_sequence d.alias_sequence_id)
        cs start_pos 0)).head?.bind decode_outcome = some (spec_outcome d cs.length) := by
  rw [contributed_children_eq]
  refine ⟨?_, ?_, spec_entries_head _ _ _ _ _⟩
  · rw [← entries_visible language include_all d cs start_pos is_root a an hsym hvis]
    exact build_write_at language include_all _ st start_pos is_root a an hroom
  · rw [← entries_visible language include_all d cs start_pos is_root a an hsym hvis]
    exact (build_count language include_all).1 _ st start_pos is_root a an

/-- Witness for `visible_classification`: a general-error node with one token
child, walked as a non-root child with `include_all = false`. -/
theorem visible_classification_witness :
    effective_symbol ⟨65535, ⟨1⟩, ⟨4⟩, true, true, false, false, true, 0⟩ 0 ≠
      plain_language.sym_end ∧
    (false || false || false || (true && true) || false) = true ∧
    (⟨[0, 0, 0], 1, []⟩ : PState).index +
      counted plain_language false
        (.node ⟨65535, ⟨1⟩, ⟨4⟩, true, true, false, false, true, 0⟩ [plain_leaf 2 0 4 true true])
        ⟨10⟩ false 0 false ≤ (⟨[0, 0, 0], 1, []⟩ : PState).root_node.length ∧
    WritesTo (ts_ptree_build__ plain_language false false
        (.node ⟨65535, ⟨1⟩, ⟨4⟩, true, true, false, false, true, 0⟩ [plain_leaf 2 0 4 true true])
        ⟨[0, 0, 0], 1, []⟩ ⟨10⟩ false 0 false)
      ⟨[0, 0, 0], 1, []⟩ [0] [0, 0]
      [PNODE_ERROR 11 PNODE_ERROR_GENERAL 4, PNODE_TOKEN_NODE 10 2 4] :=
  ⟨by decide, by decide, by decide,
    (visible_classification plain_language false
      ⟨65535, ⟨1⟩, ⟨4⟩, true, true, false, false, true, 0⟩ [plain_leaf 2 0 4 true true]
      ⟨[0, 0, 0], 1, []⟩ ⟨10⟩ false 0 false (by decide) (by decide) (by decide)).1⟩

/-! ## Pruning (C5) -/

/-- C5 (pruning): a node whose effective symbol is the end-of-input sentinel
leaves the state (buffer, cursor, stores) unchanged in both passes, whatever its
flags, children, `is_root` and `include_all`; and a tree whose root carries the
sentinel symbol packs to the empty array with length 0. -/
theorem pruning (language : TSLanguage) (include_all : Bool) (d : SubtreeData)
    (cs : List Subtree) :
    (∀ (pre_count : Bool) (st : PState) (start_pos : Length) (is_root : Bool) (a : Nat)
        (an : Bool), effective_symbol d a = language.sym_end →
      ts_ptree_build__ language include_all pre_count (.node d cs) st start_pos is_root a an =
        some st) ∧
    (d.symbol = language.sym_end →
      ∃ p, ts_ptree_build ⟨.node d cs, language⟩ include_all = some p ∧
        p.root_node = [] ∧ p.length = 0) := by
  constructor
  · intro pre_count st start_pos is_root a an h
    rw [build_node_eq]
    simp [h]
  · intro h
    refine ⟨_, build_eq _ _, ?_, ?_⟩ <;>
      simp [entries_node_eq, effective_symbol, h]

/-- Witness for `pruning`: a sentinel-symbol node with a child and every flag
set, walked as a non-root, and the same node as the root of a tree. -/
theorem pruning_witness :
    ts_ptree_build__ plain_language true false
        (.node ⟨0, ⟨1⟩, ⟨2⟩, true, true, true, true, true, 0⟩ [plain_leaf 2 0 1 true true])
        ⟨[7, 7], 0, []⟩ ⟨5⟩ false 0 false = some ⟨[7, 7], 0, []⟩ ∧
    ∃ p, ts_ptree_build
        ⟨.node ⟨0, ⟨1⟩, ⟨2⟩, true, true, true, true, true, 0⟩ [plain_leaf 2 0 1 true true],
          plain_language⟩ true = some p ∧ p.root_node = [] ∧ p.length = 0 :=
  ⟨(pruning plain_language true ⟨0, ⟨1⟩, ⟨2⟩, true, true, true, true, true, 0⟩
      [plain_leaf 2 0 1 true true]).1 false ⟨[7, 7], 0, []⟩ ⟨5⟩ false 0 false rfl,
    (pruning plain_language true ⟨0, ⟨1⟩, ⟨2⟩, true, true, true, true, true, 0⟩
      [plain_leaf 2 0 1 true true]).2 rfl⟩

/-! ## Wrapper flattening (C6) -/

theorem child_alias_zero (language : TSLanguage) (h : no_alias_overrides language) (id k : Nat) :
    child_alias_symbol (language.alias_sequence id) k = 0 := by
  unfold child_alias_symbol
  cases hseq : language.alias_sequence id with
  | none => rfl
  | some seq => exact h id seq k hseq

/-- Without alias overrides every child is walked without an alias, whatever
its ordinal. -/
theorem entries_children_no_alias (language : TSLanguage) (include_all : Bool)
    (h : no_alias_overrides language) (id : Nat) (c : Subtree) (cs : List Subtree)
    (pos : Length) (ci : Nat) :
    entries_children language include_all (language.alias_sequence id) (c :: cs) pos ci =
      entries language include_all c pos false 0 false ++
        entries_children language include_all (language.alias_sequence id) cs
          (length_add (length_add pos (ts_subtree_padding c)) (ts_subtree_size c))
          (if ts_subtree_extra c then ci else (ci + 1) % 2 ^ 32) := by
  rw [entries_children_cons, child_alias_zero language h]
  simp [child_alias_is_named]

theorem entries_children_ordinal (language : TSLanguage) (include_all : Bool)
    (h : no_alias_overrides language) (id : Nat) (cs : List Subtree) :
    ∀ pos ci ci',
      entries_children language include_all (language.alias_sequence id) cs pos ci =
        entries_children language include_all (language.alias_sequence id) cs pos ci' := by
  induction cs with
  | nil => intro pos ci ci'; simp [entries_children]
  | cons c cs ih =>
    intro pos ci ci'
    rw [entries_children_no_alias language include_all h,
      entries_children_no_alias language include_all h]
    rw [ih _ _ (if ts_subtree_extra c then ci' else (ci' + 1) % 2 ^ 32)]

/-- Replacing one child by a subtree with the same entries, padding and size
does not change the entries of the list of children. -/
theorem entries_children_set (language : TSLanguage) (include_all : Bool)
    (h : no_alias_overrides language) (id : Nat) (c' : Subtree) :
    ∀ (cs : List Subtree) (k : Nat) (c : Subtree) pos ci, cs[k]? = some c →
      (∀ p, entries language include_all c' p false 0 false =
        entries language include_all c p false 0 false) →
      ts_subtree_padding c' = ts_subtree_padding c → ts_subtree_size c' = ts_subtree_size c →
      entries_children language include_all (language.alias_sequence id) (cs.set k c') pos ci =
        entries_children language include_all (language.alias_sequence id) cs pos ci := by
  intro cs
  induction cs with
  | nil => intro k c pos ci hk; simp at hk
  | cons x xs ih =>
    intro k c pos ci hk he hp hsz
    cases k with
    | zero =>
      simp only [List.getElem?_cons_zero, Option.some.injEq] at hk
      subst hk
      simp only [List.set_cons_zero]
      rw [entries_children_no_alias language include_all h,
        entries_children_no_alias language include_all h, he, hp, hsz]
      rw [entries_children_ordinal language include_all h id xs _ _
        (if ts_subtree_extra x then ci else (ci + 1) % 2 ^ 32)]
    | succ k =>
      simp only [List.getElem?_cons_succ] at hk
      simp only [List.set_cons_succ]
      rw [entries_children_no_alias language include_all h,
        entries_children_no_alias language include_all h, ih k c _ _ hk he hp hsz]

/-- The entries of a transparent single-child wrapper are those of its child. -/
theorem entries_wrapper (language : TSLanguage) (h : no_alias_overrides language)
    (d : SubtreeData) (c : Subtree) (herr : d.is_error = false) (hmiss : d.is_missing = false)
    (hvn : (d.visible && d.named) = false) (hsym : d.symbol ≠ language.sym_end) (pos : Length) :
    entries language false (.node d [c]) pos false 0 false =
      entries language false c pos false 0 false := by
  rw [entries_node_eq]
  have hs : (effective_symbol d 0 == language.sym_end) = false := by
    simpa [effective_symbol] using hsym
  simp only [hs, Bool.false_eq_true, if_false]
  rw [entries_children_no_alias language false h]
  simp [node_flags, own_entry, herr, hmiss, hvn, entries_children]

/-- Replacing a transparent single-child wrapper below the root by its child
changes neither the entries of the enclosing tree nor its padding and size. -/
theorem replace_wrapper (language : TSLanguage) (h : no_alias_overrides language)
    (d : SubtreeData) (c : Subtree) (herr : d.is_error = false) (hmiss : d.is_missing = false)
    (hvn : (d.visible && d.named) = false) (hsym : d.symbol ≠ language.sym_end)
    (hpad : ts_subtree_padding c = d.padding) (hsize : ts_subtree_size c = d.size) :
    ∀ (path : List Nat) (t : Subtree), path ≠ [] → subtree_at t path = some (.node d [c]) →
      (∀ pos is_root a an, entries language false (replace_at t path c) pos is_root a an =
        entries language false t pos is_root a an) ∧
      ts_subtree_padding (replace_at t path c) = ts_subtree_padding t ∧
      ts_subtree_size (replace_at t path c) = ts_subtree_size t := by
  intro path
  induction path with
  | nil => intro t hne; exact absurd rfl hne
  | cons k rest ih =>
    intro t _ hat
    cases t with
    | null => simp [subtree_at] at hat
    | node dt cs =>
      simp only [subtree_at] at hat
      cases hk : cs[k]? with
      | none => simp [hk] at hat
      | some x =>
        simp only [hk] at hat
        simp only [replace_at, hk]
        have hx : (∀ p, entries language false (replace_at x rest c) p false 0 false =
              entries language false x p false 0 false) ∧
            ts_subtree_padding (replace_at x rest c) = ts_subtree_padding x ∧
            ts_subtree_size (replace_at x rest c) = ts_subtree_size x := by
          cases rest with
          | nil =>
            simp only [subtree_at, Option.some.injEq] at hat
            subst hat
            simp only [replace_at]
            exact ⟨fun p => (entries_wrapper language h d c herr hmiss hvn hsym p).symm,
              hpad, hsize⟩
          | cons k' rest' =>
            obtain ⟨h1, h2, h3⟩ := ih x (by simp) hat
            exact ⟨fun p => h1 p false 0 false, h2, h3⟩
        refine ⟨?_, rfl, rfl⟩
        intro pos is_root a an
        rw [entries_node_eq, entries_node_eq, List.length_set,
          entries_children_set language false h _ _ cs k x pos 0 hk hx.1 hx.2.1 hx.2.2]

/-- C6 (wrapper flattening): with `include_all = false` and no alias overrides,
if the subtree at a non-empty path is a non-error wrapper that is not missing,
not visible-and-named, has a non-sentinel symbol and exactly one child `c` of
the same padding and byte size, then the tree with the wrapper replaced by `c`
packs to exactly the same array (so every start-offset field is unchanged) and
the same length. -/
theorem wrapper_flattening (language : TSLanguage) (root : Subtree) (path : List Nat)
    (d : SubtreeData) (c : Subtree) (hna : no_alias_overrides language) (hpath : path ≠ [])
    (hat : subtree_at root path = some (.node d [c]))
    (herr : d.is_error = false) (hmiss : d.is_missing = false)
    (hvn : (d.visible && d.named) = false) (hsym : d.symbol ≠ language.sym_end)
    (hpad : ts_subtree_padding c = d.padding) (hsize : ts_subtree_size c = d.size) :
    ∃ p q, ts_ptree_build ⟨root, language⟩ false = some p ∧
      ts_ptree_build ⟨replace_at root path c, language⟩ false = some q ∧
      q.root_node = p.root_node ∧ q.length = p.length := by
  obtain ⟨h1, _, _⟩ := replace_wrapper language hna d c herr hmiss hvn hsym hpad hsize path root
    hpath hat
  refine ⟨_, _, build_eq _ false, build_eq _ false, ?_, ?_⟩
  · exact h1 length_zero true 0 false
  · exact congrArg List.length (h1 length_zero true 0 false)

/-- Witness for `wrapper_flattening`: the wrapper at child index 1 of
`wrapper_tree`, whose child is a two-byte token with one byte of padding. -/
theorem wrapper_flattening_witness :
    subtree_at wrapper_tree [1] =
      some (.node ⟨9, ⟨1⟩, ⟨2⟩, false, false, false, false, false, 0⟩
        [plain_leaf 3 1 2 true true]) ∧
    ∃ p q, ts_ptree_build ⟨wrapper_tree, plain_language⟩ false = some p ∧
      ts_ptree_build ⟨replace_at wrapper_tree [1] (plain_leaf 3 1 2 true true),
        plain_language⟩ false = some q ∧
      q.root_node = p.root_node ∧ q.length = p.length :=
  ⟨rfl, wrapper_flattening plain_language wrapper_tree [1]
    ⟨9, ⟨1⟩, ⟨2⟩, false, false, false, false, false, 0⟩ (plain_leaf 3 1 2 true true)
    (by intro id seq k h; cases h) (by decide) rfl rfl rfl rfl (by decide) rfl rfl⟩

/-! ## Length under `include_all` (C7) -/

theorem rule_flag_mono (d : SubtreeData) (n : Nat) (is_root an : Bool)
    (h : (node_flags d n is_root false an).is_rule_node = true) :
    (node_flags d n is_root true an).is_rule_node = true := by
  revert h
  unfold node_flags
  simp only [Bool.true_or, Bool.false_or, if_true]
  split_ifs <;> simp_all

theorem own_entry_length_le (d : SubtreeData) (f : NodeFlags) (symbol : Nat)
    (start_pos : Length) : (own_entry d f symbol start_pos).toList.length ≤ 1 := by
  cases own_entry d f symbol start_pos <;> simp

theorem own_entry_include_all (d : SubtreeData) (n : Nat) (is_root an : Bool) (symbol : Nat)
    (start_pos : Length) :
    (own_entry d (node_flags d n is_root true an) symbol start_pos).toList.length = 1 := by
  unfold node_flags own_entry
  simp only [Bool.true_or, if_true]
  split_ifs <;> simp_all

/-- The number of entries does not shrink when `include_all` is switched on. -/
theorem entries_length_mono (language : TSLanguage) :
    (∀ t start_pos is_root a an,
      (entries language false t start_pos is_root a an).length ≤
        (entries language true t start_pos is_root a an).length) ∧
    (∀ cs aseq pos ci,
      (entries_children language false aseq cs pos ci).length ≤
        (entries_children language true aseq cs pos ci).length) := by
  apply subtree_induction
  · intro start_pos is_root a an
    simp [entries]
  · intro d cs ih start_pos is_root a an
    rw [entries_node_eq, entries_node_eq]
    by_cases hs : (effective_symbol d a == language.sym_end) = true
    · simp [hs]
    · simp only [hs, Bool.false_eq_true, if_false]
      have hcs := ih (language.alias_sequence d.alias_sequence_id) start_pos 0
      have h1 := rule_flag_mono d cs.length is_root an
      have h2 := own_entry_length_le d (node_flags d cs.length is_root false an)
        (effective_symbol d a) start_pos
      have h3 := own_entry_include_all d cs.length is_root an (effective_symbol d a) start_pos
      by_cases hrf : (node_flags d cs.length is_root false an).is_rule_node = true
      · simp only [hrf, h1 hrf, if_true, List.length_cons, List.length_append, List.length_nil]
        omega
      · by_cases hrt : (node_flags d cs.length is_root true an).is_rule_node = true
        · simp only [hrf, hrt, Bool.false_eq_true, if_true, if_false, List.length_cons,
            List.length_append, List.length_nil]
          omega
        · simp only [hrf, hrt, Bool.false_eq_true, if_false, List.length_append]
          omega
  · intro aseq pos ci
    simp [entries_children]
  · intro c cs ihc ihcs aseq pos ci
    rw [entries_children_cons, entries_children_cons]
    simp only [List.length_append]
    exact Nat.add_le_add (ihc _ _ _ _) (ihcs _ _ _)

/-- C7 (`include_all` monotonicity of length): for every tree and language both
builds return a packed tree, and the one built with `include_all = true` is at
least as long as the one built with `include_all = false`, in its `length`
member and in its array. -/
theorem include_all_length_mono (tree : TSTree) :
    ∃ p q, ts_ptree_build tree true = some p ∧ ts_ptree_build tree false = some q ∧
      q.length ≤ p.length ∧ q.root_node.length ≤ p.root_node.length := by
  have h := (entries_length_mono tree.language).1 tree.root length_zero true 0 false
  exact ⟨_, _, build_eq tree true, build_eq tree false, h, h⟩

/-! ## Subsequence under `include_all` (C8) -/

/-- With `include_all = false`, a node that is visible has the flags it has
with `include_all = true`. -/
theorem node_flags_visible (d : SubtreeData) (n : Nat) (is_root an : Bool)
    (h : (node_flags d n is_root false an).visible = true) :
    node_flags d n is_root false an = node_flags d n is_root true an := by
  revert h
  unfold node_flags
  simp only [Bool.false_or, Bool.true_or, if_true]
  cases hv : (is_root || d.is_missing || (d.visible && d.named) || an)
  · simp
  · simp

/-- With `include_all = false`, a node that is neither visible nor an error
has no flag set. -/
theorem node_flags_hidden (d : SubtreeData) (n : Nat) (is_root an : Bool)
    (h : (node_flags d n is_root false an).visible = false) (herr : d.is_error = false) :
    node_flags d n is_root false an = ⟨false, false, false, false, false, false⟩ := by
  revert h
  unfold node_flags
  simp only [Bool.false_or]
  cases hv : (is_root || d.is_missing || (d.visible && d.named) || an)
  · intro _
    have hm : d.is_missing = false := by
      cases h : d.is_missing
      · rfl
      · simp [h] at hv
    simp [herr, hm]
  · simp only [if_true]
    split_ifs <;> simp

theorem node_flags_visible_of_error (d : SubtreeData) (n : Nat) (is_root an : Bool)
    (herr : d.is_error = true) (hv : (d.visible && d.named) = true) :
    (node_flags d n is_root false an).visible = true := by
  unfold node_flags
  simp only [hv, Bool.or_true, Bool.true_or, if_true]
  split_ifs <;> rfl

/-- On a tree whose error nodes are all visible and named, the keys of the
`include_all = false` entries form a subsequence of the keys of the
`include_all = true` entries. -/
theorem entries_sublist (language : TSLanguage) :
    (∀ t, errors_visible t = true → ∀ start_pos is_root a an,
      List.Sublist (List.map compare_key (entries language false t start_pos is_root a an))
        (List.map compare_key (entries language true t start_pos is_root a an))) ∧
    (∀ cs, errors_visible_list cs = true → ∀ aseq pos ci,
      List.Sublist (List.map compare_key (entries_children language false aseq cs pos ci))
        (List.map compare_key (entries_children language true aseq cs pos ci))) := by
  apply subtree_induction
  · intro _ start_pos is_root a an
    simp [entries]
  · intro d cs ih hev start_pos is_root a an
    simp only [errors_visible, Bool.and_eq_true, Bool.or_eq_true, Bool.not_eq_true'] at hev
    obtain ⟨hd, hcs⟩ := hev
    have hch := ih hcs (language.alias_sequence d.alias_sequence_id) start_pos 0
    rw [entries_node_eq, entries_node_eq]
    by_cases hs : (effective_symbol d a == language.sym_end) = true
    · simp [hs]
    · simp only [hs, Bool.false_eq_true, if_false]
      cases hv : (node_flags d cs.length is_root false an).visible
      · have herr : d.is_error = false := by
          rcases hd with h | h
          · exact h
          · cases he : d.is_error
            · rfl
            · have := node_flags_visible_of_error d cs.length is_root an he
                (by simpa using h)
              rw [hv] at this; cases this
        rw [node_flags_hidden d cs.length is_root an hv herr]
        simp only [Bool.false_eq_true, if_false, own_entry, Option.toList_none, List.nil_append]
        by_cases hrt : (node_flags d cs.length is_root true an).is_rule_node = true
        · simp only [hrt, if_true, map_key_rule]
          exact List.Sublist.cons _ (hch.trans (List.sublist_append_left _ _))
        · simp only [hrt, Bool.false_eq_true, if_false, List.map_append]
          exact hch.trans (List.sublist_append_right _ _)
      · rw [node_flags_visible d cs.length is_root an hv]
        by_cases hrt : (node_flags d cs.length is_root true an).is_rule_node = true
        · simp only [hrt, if_true, map_key_rule]
          exact List.Sublist.cons₂ _ (List.Sublist.append hch (List.Sublist.refl _))
        · simp only [hrt, Bool.false_eq_true, if_false, List.map_append]
          exact List.Sublist.append (List.Sublist.refl _) hch
  · intro _ aseq pos ci
    simp [entries_children]
  · intro c cs ihc ihcs hev aseq pos ci
    simp only [errors_visible_list, Bool.and_eq_true] at hev
    rw [entries_children_cons, entries_children_cons, List.map_append, List.map_append]
    exact List.Sublist.append (ihc hev.1 _ _ _ _) (ihcs hev.2 _ _ _)

/-- C8 (include_all subsequence): for every source tree (its error nodes carry
the flags of the error symbol, visible and named) and language, both builds
return, and the array of `ts_ptree_build tree false` is a subsequence of the
array of `ts_ptree_build tree true` when entries are compared by kind tag,
start/end bit, symbol or error-subkind field and start-offset field. -/
theorem include_all_subsequence (tree : TSTree) (hwf : errors_visible tree.root = true) :
    ∃ p q, ts_ptree_build tree false = some p ∧ ts_ptree_build tree true = some q ∧
      List.Sublist (p.root_node.map compare_key) (q.root_node.map compare_key) :=
  ⟨_, _, build_eq tree false, build_eq tree true,
    (entries_sublist tree.language).1 tree.root hwf length_zero true 0 false⟩

/-- The subsequence theorem at `recovered_tree`, whose selective build has
four entries and whose full build has seven. -/
theorem include_all_subsequence_witness :
    errors_visible recovered_tree.root = true ∧
    (∃ p q, ts_ptree_build recovered_tree false = some p ∧
      ts_ptree_build recovered_tree true = some q ∧
      List.Sublist (p.root_node.map compare_key) (q.root_node.map compare_key)) ∧
    (∃ p q, ts_ptree_build recovered_tree false = some p ∧
      ts_ptree_build recovered_tree true = some q ∧ p.length = 4 ∧ q.length = 7) :=
  ⟨by decide, include_all_subsequence recovered_tree (by decide),
    ⟨_, _, build_eq _ false, build_eq _ true, by decide, by decide⟩⟩

/-- The condition on error nodes is needed for the subsequence property: on
`hidden_error_tree`, which no parser builds, the `include_all = false` array of
the walker taken alone holds a general-error word where the `include_all = true`
array holds an unexpected-error word at the same offset. -/
theorem hidden_error_not_subsequence :
    ∃ p q, ts_ptree_build hidden_error_tree false = some p ∧
      ts_ptree_build hidden_error_tree true = some q ∧
      p.root_node = [PNODE_START_RULE_NODE_LENGTH (PNODE_START_RULE_NODE 1) 2,
        PNODE_ERROR 0 PNODE_ERROR_GENERAL 1, PNODE_END_RULE_NODE 1 2] ∧
      q.root_node = [PNODE_START_RULE_NODE_LENGTH (PNODE_START_RULE_NODE 1) 2,
        PNODE_ERROR 0 PNODE_ERROR_UNEXPECTED 1, PNODE_END_RULE_NODE 1 2] ∧
      ¬ List.Sublist (p.root_node.map compare_key) (q.root_node.map compare_key) := by
  refine ⟨_, _, build_eq _ false, build_eq _ true, by decide, by decide, by decide⟩

/-! ## Minimum length of error entries (C9) -/

/-- An own entry of kind 3 comes from one of the three `PNODE_ERROR` branches. -/
theorem own_entry_error (d : SubtreeData) (f : NodeFlags) (symbol : Nat) (start_pos : Length)
    (w : Nat) (hw : own_entry d f symbol start_pos = some w)
    (hk : kind_tag w = PNODE_ERROR_NODE_TYPE) :
    f.is_rule_node = false ∧
      ∃ k, w = PNODE_ERROR ((start_pos.bytes + d.padding.bytes) % 2 ^ 32) k
        (if d.size.bytes == 0 then 1 else d.size.bytes) := by
  unfold own_entry at hw
  simp only [] at hw
  generalize (if d.size.bytes == 0 then 1 else d.size.bytes) = len at hw ⊢
  generalize (start_pos.bytes + d.padding.bytes) % 2 ^ 32 = off at hw ⊢
  obtain ⟨v, tok, rule, ux, err, miss⟩ := f
  cases rule <;> cases tok <;> cases ux <;> cases miss <;> cases err <;>
    simp only [Bool.false_eq_true, if_false, if_true, Option.some.injEq, reduceCtorEq] at hw <;>
    subst hw <;>
    first
    | (rw [kind_tag_start_unpatched] at hk; cases hk)
    | (rw [kind_tag_token] at hk; cases hk)
    | exact ⟨rfl, _, rfl⟩

/-- A node that is an error or missing node with a non-sentinel symbol stores
an error word for itself. -/
theorem own_entry_of_error (d : SubtreeData) (n : Nat) (is_root include_all an : Bool)
    (symbol : Nat) (start_pos : Length) (herr : d.is_error = true ∨ d.is_missing = true) :
    ∃ w, own_entry d (node_flags d n is_root include_all an) symbol start_pos = some w ∧
      kind_tag w = PNODE_ERROR_NODE_TYPE := by
  unfold node_flags own_entry
  simp only []
  generalize (if d.size.bytes == 0 then 1 else d.size.bytes) = len
  generalize (start_pos.bytes + d.padding.bytes) % 2 ^ 32 = off
  generalize (d.is_error && n == 0 && decide (d.size.bytes > 0)) = ux
  cases hv : (include_all || is_root || d.is_missing || (d.visible && d.named) || an) <;>
    cases he : d.is_error <;> cases hm : d.is_missing <;> cases ux <;>
    simp_all [kind_tag_error, PNODE_ERROR_NODE_TYPE]

/-- C9 (error minimum length): for a node of byte size 0 with non-sentinel
effective symbol, whenever the word the walker stores for the node itself is of
kind 3 (any subkind), that word is in the array at the node's cursor position
and its byte-length field (bits 36..59) is 1; and the walker does store such a
word for every error node and every missing node. -/
theorem error_min_length (language : TSLanguage) (include_all : Bool) (d : SubtreeData)
    (cs : List Subtree) (st : PState) (start_pos : Length) (is_root : Bool) (a : Nat) (an : Bool)
    (hsize : d.size.bytes = 0) (hsym : effective_symbol d a ≠ language.sym_end)
    (hroom : st.index + counted language include_all (.node d cs) start_pos is_root a an ≤
      st.root_node.length) :
    ∃ st',
      ts_ptree_build__ language include_all false (.node d cs) st start_pos is_root a an =
        some st' ∧
      (∀ w, own_entry d (node_flags d cs.length is_root include_all an) (effective_symbol d a)
          start_pos = some w → kind_tag w = PNODE_ERROR_NODE_TYPE →
        st'.root_node.get? st.index = some w ∧ byte_length_field w = 1) ∧
      ((d.is_error = true ∨ d.is_missing = true) →
        ∃ w, st'.root_node.get? st.index = some w ∧ kind_tag w = PNODE_ERROR_NODE_TYPE ∧
          byte_length_field w = 1) := by
  obtain ⟨wl, h, _, _⟩ := build_write_at language include_all _ st start_pos is_root a an hroom
  rw [counted_eq] at hroom
  have hs : (effective_symbol d a == language.sym_end) = false := by simpa using hsym
  have key : ∀ w, own_entry d (node_flags d cs.length is_root include_all an)
      (effective_symbol d a) start_pos = some w → kind_tag w = PNODE_ERROR_NODE_TYPE →
      (List.take st.index st.root_node ++
        (entries language include_all (.node d cs) start_pos is_root a an ++
          List.drop (entries language include_all (.node d cs) start_pos is_root a an).length
            (List.drop st.index st.root_node))).get? st.index = some w ∧
        byte_length_field w = 1 := by
    intro w hw hk
    obtain ⟨hr, k, rfl⟩ := own_entry_error _ _ _ _ w hw hk
    constructor
    · rw [entries_node_eq] at hroom ⊢
      simp only [hs, hr, Bool.false_eq_true, if_false, hw, Option.toList_some,
        List.singleton_append, List.length_cons, List.cons_append] at hroom ⊢
      exact get_at_cursor _ _ _ _ (by omega)
    · rw [byte_length_field_error]; simp [hsize]
  refine ⟨_, h, key, ?_⟩
  intro herr
  obtain ⟨w, hw, hk⟩ := own_entry_of_error d cs.length is_root include_all an
    (effective_symbol d a) start_pos herr
  exact ⟨w, (key w hw hk).1, hk, (key w hw hk).2⟩

/-- Witness for `error_min_length`: a missing leaf of size 0 after three bytes. -/
theorem error_min_length_witness :
    (⟨7, ⟨0⟩, ⟨0⟩, true, false, false, true, false, 0⟩ : SubtreeData).size.bytes = 0 ∧
    effective_symbol ⟨7, ⟨0⟩, ⟨0⟩, true, false, false, true, false, 0⟩ 0 ≠
      plain_language.sym_end ∧
    ∃ st' w,
      ts_ptree_build__ plain_language false false
        (.node ⟨7, ⟨0⟩, ⟨0⟩, true, false, false, true, false, 0⟩ []) ⟨[0, 0], 1, []⟩ ⟨3⟩ false 0
        false = some st' ∧
      st'.root_node.get? 1 = some w ∧
      kind_tag w = PNODE_ERROR_NODE_TYPE ∧ byte_length_field w = 1 := by
  refine ⟨rfl, by decide, ?_⟩
  obtain ⟨st', h, _, h2⟩ := error_min_length plain_language false
    ⟨7, ⟨0⟩, ⟨0⟩, true, false, false, true, false, 0⟩ [] ⟨[0, 0], 1, []⟩ ⟨3⟩ false 0 false rfl
    (by decide) (by decide)
  obtain ⟨w, hw⟩ := h2 (Or.inr rfl)
  exact ⟨st', w, h, hw⟩

/-! ## The `1+2` scenario (C10) -/

/-- C10 (the `1+2` scenario): for a root `expr` that is neither an error nor
missing, with three non-extra leaves `number` (visible, named), `op` (visible,
not named), `number` (visible, named) and no aliases, `include_all = false`
yields exactly the four entries rule start, token, token, rule end;
`include_all = true` yields exactly five entries with the `op` token at index 2;
and the span-length field of both `expr` markers is exactly 1 greater in the
`include_all = true` array. -/
theorem one_plus_two (language : TSLanguage) (e n o : Nat) (epad esize : Nat)
    (evis enamed eextra : Bool) (aid : Nat) (p1 s1 p2 s2 p3 s3 : Nat)
    (he : e ≠ language.sym_end) (hn : n ≠ language.sym_end) (ho : o ≠ language.sym_end)
    (hal : ∀ k, child_alias_symbol (language.alias_sequence aid) k = 0) :
    ∃ p q,
      ts_ptree_build ⟨.node ⟨e, ⟨epad⟩, ⟨esize⟩, evis, enamed, eextra, false, false, aid⟩
        [plain_leaf n p1 s1 true true, plain_leaf o p2 s2 true false,
          plain_leaf n p3 s3 true true], language⟩ false = some p ∧
      ts_ptree_build ⟨.node ⟨e, ⟨epad⟩, ⟨esize⟩, evis, enamed, eextra, false, false, aid⟩
        [plain_leaf n p1 s1 true true, plain_leaf o p2 s2 true false,
          plain_leaf n p3 s3 true true], language⟩ true = some q ∧
      p.length = 4 ∧
      p.root_node =
        [PNODE_START_RULE_NODE_LENGTH (PNODE_START_RULE_NODE e) 3,
         PNODE_TOKEN_NODE (p1 % 2 ^ 32) n s1,
         PNODE_TOKEN_NODE
           (((((p1 % 2 ^ 32 + s1) % 2 ^ 32 + p2) % 2 ^ 32 + s2) % 2 ^ 32 + p3) % 2 ^ 32) n s3,
         PNODE_END_RULE_NODE e 3] ∧
      q.length = 5 ∧
      q.root_node =
        [PNODE_START_RULE_NODE_LENGTH (PNODE_START_RULE_NODE e) 4,
         PNODE_TOKEN_NODE (p1 % 2 ^ 32) n s1,
         PNODE_TOKEN_NODE (((p1 % 2 ^ 32 + s1) % 2 ^ 32 + p2) % 2 ^ 32) o s2,
         PNODE_TOKEN_NODE
           (((((p1 % 2 ^ 32 + s1) % 2 ^ 32 + p2) % 2 ^ 32 + s2) % 2 ^ 32 + p3) % 2 ^ 32) n s3,
         PNODE_END_RULE_NODE e 4] ∧
      span_length_field (q.root_node.getD 0 0) = span_length_field (p.root_node.getD 0 0) + 1 ∧
      span_length_field (q.root_node.getD 4 0) = span_length_field (p.root_node.getD 3 0) + 1 := by
  refine ⟨_, _, build_eq _ false, build_eq _ true, ?_⟩
  have hE : (effective_symbol ⟨e, ⟨epad⟩, ⟨esize⟩, evis, enamed, eextra, false, false, aid⟩ 0 ==
      language.sym_end) = false := by simpa [effective_symbol] using he
  simp only [entries_node_eq, hE, Bool.false_eq_true, if_false, entries_children_cons, hal,
    child_alias_is_named, bne_self_eq_false, entries_plain_leaf _ _ _ _ _ _ _ _ hn,
    entries_plain_leaf _ _ _ _ _ _ _ _ ho, entries_children]
  simp [node_flags, plain_leaf, ts_subtree_extra, ts_subtree_padding, ts_subtree_size,
    length_add, length_zero, effective_symbol, span_length_field_start, span_length_field_end]

/-- Witness for `one_plus_two`: `expr` = 1, `number` = 2, `op` = 3, one byte
each, in a language without alias sequences. -/
theorem one_plus_two_witness :
    (1 ≠ plain_language.sym_end ∧ 2 ≠ plain_language.sym_end ∧ 3 ≠ plain_language.sym_end) ∧
    ∃ p q,
      ts_ptree_build ⟨.node ⟨1, ⟨0⟩, ⟨3⟩, true, true, false, false, false, 0⟩
        [plain_leaf 2 0 1 true true, plain_leaf 3 0 1 true false,
          plain_leaf 2 0 1 true true], plain_language⟩ false = some p ∧
      ts_ptree_build ⟨.node ⟨1, ⟨0⟩, ⟨3⟩, true, true, false, false, false, 0⟩
        [plain_leaf 2 0 1 true true, plain_leaf 3 0 1 true false,
          plain_leaf 2 0 1 true true], plain_language⟩ true = some q ∧
      p.root_node = [12305, 68719476752, 68719484944, 12313] ∧
      q.root_node = [16401, 68719476752, 68719480856, 68719484944, 16409] := by
  refine ⟨⟨by decide, by decide, by decide⟩, ?_⟩
  obtain ⟨p, q, hp, hq, _, hpr, _, hqr, _⟩ := one_plus_two plain_language 1 2 3 0 3 true true
    false 0 0 1 0 1 0 1 (by decide) (by decide) (by decide) (fun _ => rfl)
  exact ⟨p, q, hp, hq, by rw [hpr]; decide, by rw [hqr]; decide⟩

/-! ## Word layouts (C12, C13) -/

theorem shift_mask_eq (w a b : Nat) : (w >>> a) &&& (2 ^ b - 1) = w / 2 ^ a % 2 ^ b := by
  rw [Nat.and_pow_two_sub_one_eq_mod, Nat.shiftRight_eq_div_pow]

/-- C12 (token and error word layout): the word of `PNODE_TOKEN_NODE` has
bits[0:3) = 0, bits[3:11) = `s mod 256`, bit 11 = 0, bits[12:36) = `o mod 2^24`,
bits[36:60) = `l mod 2^24` and bits[60:64) = 0; the word of `PNODE_ERROR` has
bits[0:3) = 3, bits[3:11) = the subkind (0, 1 or 2) and the same offset and
length fields; the word is the sum of its fields at their positions, so each
field is read back by its own shift and mask. -/
theorem token_error_layout (s o l : Nat) :
    (kind_tag (PNODE_TOKEN_NODE o s l) = 0 ∧
      symbol_field (PNODE_TOKEN_NODE o s l) = s % 256 ∧
      PNODE_TOKEN_NODE o s l / 2 ^ 11 % 2 = 0 ∧
      start_offset_field (PNODE_TOKEN_NODE o s l) = o % 2 ^ 24 ∧
      byte_length_field (PNODE_TOKEN_NODE o s l) = l % 2 ^ 24 ∧
      PNODE_TOKEN_NODE o s l / 2 ^ 60 = 0 ∧
      PNODE_TOKEN_NODE o s l = (l % 2 ^ 24) * 2 ^ 36 + (o % 2 ^ 24) * 2 ^ 12 + (s % 256) * 2 ^ 3 ∧
      (PNODE_TOKEN_NODE o s l) &&& 0x7 = 0 ∧
      ((PNODE_TOKEN_NODE o s l) >>> 3) &&& 0xFF = s % 256 ∧
      ((PNODE_TOKEN_NODE o s l) >>> 12) &&& 0xFFFFFF = o % 2 ^ 24 ∧
      ((PNODE_TOKEN_NODE o s l) >>> 36) &&& 0xFFFFFF = l % 2 ^ 24) ∧
    (∀ k, k = PNODE_ERROR_GENERAL ∨ k = PNODE_ERROR_MISSING ∨ k = PNODE_ERROR_UNEXPECTED →
      kind_tag (PNODE_ERROR o k l) = 3 ∧
      symbol_field (PNODE_ERROR o k l) = k ∧
      PNODE_ERROR o k l / 2 ^ 11 % 2 = 0 ∧
      start_offset_field (PNODE_ERROR o k l) = o % 2 ^ 24 ∧
      byte_length_field (PNODE_ERROR o k l) = l % 2 ^ 24 ∧
      PNODE_ERROR o k l / 2 ^ 60 = 0 ∧
      PNODE_ERROR o k l = (l % 2 ^ 24) * 2 ^ 36 + (o % 2 ^ 24) * 2 ^ 12 + k * 2 ^ 3 + 3 ∧
      (PNODE_ERROR o k l) &&& 0x7 = 3 ∧
      ((PNODE_ERROR o k l) >>> 3) &&& 0xFF = k ∧
      ((PNODE_ERROR o k l) >>> 12) &&& 0xFFFFFF = o % 2 ^ 24 ∧
      ((PNODE_ERROR o k l) >>> 36) &&& 0xFFFFFF = l % 2 ^ 24) := by
  have m7 : ∀ w : Nat, w &&& 0x7 = w % 8 := fun w => Nat.and_pow_two_sub_one_eq_mod w 3
  have m8 : ∀ w a : Nat, (w >>> a) &&& 0xFF = w / 2 ^ a % 2 ^ 8 := fun w a => shift_mask_eq w a 8
  have m24 : ∀ w a : Nat, (w >>> a) &&& 0xFFFFFF = w / 2 ^ a % 2 ^ 24 :=
    fun w a => shift_mask_eq w a 24
  constructor
  · simp only [m7, m8, m24]
    rw [token_eq]
    unfold kind_tag symbol_field start_offset_field byte_length_field
    refine ⟨?_, ?_, ?_, ?_, ?_, ?_, ?_, ?_, ?_, ?_, ?_⟩ <;> omega
  · intro k hk
    have hk2 : k ≤ 2 := by
      rcases hk with h | h | h <;> rw [h] <;> decide
    simp only [m7, m8, m24]
    rw [error_eq]
    unfold kind_tag symbol_field start_offset_field byte_length_field
    refine ⟨?_, ?_, ?_, ?_, ?_, ?_, ?_, ?_, ?_, ?_, ?_⟩ <;> omega

/-- Witness for `token_error_layout`: the missing-error word at offset 5 with
length 1. -/
theorem token_error_layout_witness :
    kind_tag (PNODE_ERROR 5 PNODE_ERROR_MISSING 1) = 3 ∧
      symbol_field (PNODE_ERROR 5 PNODE_ERROR_MISSING 1) = PNODE_ERROR_MISSING ∧
      start_offset_field (PNODE_ERROR 5 PNODE_ERROR_MISSING 1) = 5 % 2 ^ 24 ∧
      byte_length_field (PNODE_ERROR 5 PNODE_ERROR_MISSING 1) = 1 % 2 ^ 24 :=
  have h := (token_error_layout 0 5 1).2 PNODE_ERROR_MISSING (Or.inr (Or.inl rfl))
  ⟨h.1, h.2.1, h.2.2.2.1, h.2.2.2.2.1⟩

/-- C13 (rule marker layout and symbol truncation): the start marker of
`PNODE_START_RULE_NODE` has bits[0:3) = 1, bit 3 = 0, bits[4:12) = `s mod 256`
and no higher bit; the end marker of `PNODE_END_RULE_NODE` with length `n` has
bits[0:3) = 1, bit 3 = 1, bits[4:12) = `s mod 256`, bits[12:20) = `n mod 256`
and no higher bit; so two symbols congruent mod 256 give identical marker
words. -/
theorem rule_marker_layout (s n : Nat) :
    (kind_tag (PNODE_START_RULE_NODE s) = 1 ∧
      rule_end_bit (PNODE_START_RULE_NODE s) = 0 ∧
      rule_symbol_field (PNODE_START_RULE_NODE s) = s % 256 ∧
      PNODE_START_RULE_NODE s / 2 ^ 12 = 0 ∧
      PNODE_START_RULE_NODE s = (s % 256) * 2 ^ 4 + 1) ∧
    (kind_tag (PNODE_END_RULE_NODE s n) = 1 ∧
      rule_end_bit (PNODE_END_RULE_NODE s n) = 1 ∧
      rule_symbol_field (PNODE_END_RULE_NODE s n) = s % 256 ∧
      span_length_field (PNODE_END_RULE_NODE s n) = n % 256 ∧
      PNODE_END_RULE_NODE s n / 2 ^ 20 = 0 ∧
      PNODE_END_RULE_NODE s n = (n % 256) * 2 ^ 12 + (s % 256) * 2 ^ 4 + 2 ^ 3 + 1) ∧
    (∀ s', s % 256 = s' % 256 →
      PNODE_START_RULE_NODE s = PNODE_START_RULE_NODE s' ∧
      PNODE_END_RULE_NODE s n = PNODE_END_RULE_NODE s' n) := by
  refine ⟨?_, ?_, ?_⟩
  · rw [start_rule_eq]
    unfold kind_tag rule_end_bit rule_symbol_field
    refine ⟨?_, ?_, ?_, ?_, ?_⟩ <;> omega
  · rw [end_rule_eq]
    unfold kind_tag rule_end_bit rule_symbol_field span_length_field
    refine ⟨?_, ?_, ?_, ?_, ?_, ?_⟩ <;> omega
  · intro s' h
    rw [start_rule_eq, start_rule_eq, end_rule_eq, end_rule_eq, h]
    exact ⟨rfl, rfl⟩

/-- Witness for `rule_marker_layout`: the symbols 1 and 257 collide. -/
theorem rule_marker_layout_witness :
    1 % 256 = 257 % 256 ∧ PNODE_START_RULE_NODE 1 = PNODE_START_RULE_NODE 257 ∧
      PNODE_END_RULE_NODE 1 3 = PNODE_END_RULE_NODE 257 3 :=
  ⟨rfl, (rule_marker_layout 1 3).2.2 257 rfl⟩

/-! ## Exact buffer cover (C14) -/

/-- C14 (exact buffer cover): with `n` the cursor returned by the counting
pass, the writing pass on the zero-initialised buffer of `n` slots completes
without a store outside the buffer, every index it stores to is strictly less
than `n`, and every index below `n` is stored to at least once. -/
theorem exact_buffer_cover (tree : TSTree) (include_all : Bool) :
    ∃ c w,
      ts_ptree_build__ tree.language include_all true tree.root ⟨[], 0, []⟩ length_zero true 0
        false = some c ∧
      ts_ptree_build__ tree.language include_all false tree.root
        ⟨List.replicate c.index 0, 0, []⟩ length_zero true 0 false = some w ∧
      w.root_node.length = c.index ∧
      (∀ i, i ∈ w.writes → i < c.index) ∧
      (∀ i, i < c.index → i ∈ w.writes) := by
  obtain ⟨wl, h, hmem⟩ :=
    write_pass_eq tree.language include_all tree.root length_zero true 0 false
  exact ⟨_, _, count_pass_eq _ _ _ _ _ _ _, h, rfl, fun i hi => (hmem i).1 hi,
    fun i hi => (hmem i).2 hi⟩

/-! ## The loop over the children, child by child -/

theorem pos_after_append (pos : Length) (a b : List Subtree) :
    pos_after pos (a ++ b) = pos_after (pos_after pos a) b := by
  induction a generalizing pos with
  | nil => rfl
  | cons c cs ih => rw [List.cons_append, pos_after, pos_after, ih]

theorem child_index_after_append (ci : Nat) (a b : List Subtree) :
    child_index_after ci (a ++ b) = child_index_after (child_index_after ci a) b := by
  induction a generalizing ci with
  | nil => rfl
  | cons c cs ih => rw [List.cons_append, child_index_after, child_index_after, ih]

theorem children_bytes_append (a b : List Subtree) :
    children_bytes (a ++ b) = children_bytes a + children_bytes b := by
  induction a with
  | nil => simp [children_bytes]
  | cons c cs ih => rw [List.cons_append, children_bytes, children_bytes, ih]; omega

theorem non_extra_count_append (a b : List Subtree) :
    non_extra_count (a ++ b) = non_extra_count a + non_extra_count b := by
  induction a with
  | nil => simp [non_extra_count]
  | cons c cs ih => rw [List.cons_append, non_extra_count, non_extra_count, ih]; omega

/-- The position after a list of children, as a `uint32_t` sum. -/
theorem pos_after_bytes (cs : List Subtree) :
    ∀ pos : Length, (pos_after pos cs).bytes % 2 ^ 32 = (pos.bytes + children_bytes cs) % 2 ^ 32 := by
  induction cs with
  | nil => intro pos; simp [pos_after, children_bytes]
  | cons c cs ih =>
    intro pos
    simp only [pos_after, children_bytes]
    rw [ih]
    simp only [length_add]
    omega

/-- The position after a list of children when the sum does not overflow. -/
theorem pos_after_bytes_exact (cs : List Subtree) :
    ∀ pos : Length, pos.bytes + children_bytes cs < 2 ^ 32 →
      (pos_after pos cs).bytes = pos.bytes + children_bytes cs := by
  induction cs with
  | nil => intro pos _; simp [pos_after, children_bytes]
  | cons c cs ih =>
    intro pos h
    simp only [pos_after, children_bytes] at h ⊢
    have h1 : (length_add (length_add pos (ts_subtree_padding c)) (ts_subtree_size c)).bytes =
        pos.bytes + (ts_subtree_padding c).bytes + (ts_subtree_size c).bytes := by
      simp only [length_add]
      rw [Nat.mod_eq_of_lt (a := pos.bytes + (ts_subtree_padding c).bytes) (by omega),
        Nat.mod_eq_of_lt (by omega)]
    rw [ih _ (by rw [h1]; omega), h1]
    omega

/-- The ordinal after a list of children is the number of non-extra children
passed, as a `uint32_t`. -/
theorem child_index_after_count (cs : List Subtree) :
    ∀ ci : Nat, child_index_after ci cs % 2 ^ 32 = (ci + non_extra_count cs) % 2 ^ 32 := by
  induction cs with
  | nil => intro ci; simp [child_index_after, non_extra_count]
  | cons c cs ih =>
    intro ci
    simp only [child_index_after, non_extra_count]
    rw [ih]
    by_cases hx : ts_subtree_extra c = true
    · simp [hx]
    · simp only [hx, Bool.false_eq_true, if_false]
      omega

theorem non_extra_count_le (cs : List Subtree) : non_extra_count cs ≤ cs.length := by
  induction cs with
  | nil => simp [non_extra_count]
  | cons c cs ih =>
    simp only [non_extra_count, List.length_cons]
    split_ifs <;> omega

theorem child_index_after_lt (cs : List Subtree) :
    ∀ ci : Nat, ci < 2 ^ 32 → child_index_after ci cs < 2 ^ 32 := by
  induction cs with
  | nil => intro ci h; simpa [child_index_after] using h
  | cons c cs ih =>
    intro ci h
    simp only [child_index_after]
    apply ih
    split_ifs
    · exact h
    · omega

/-- From ordinal 0 and with fewer than `2^32` children passed, the ordinal is
exactly the number of non-extra children passed. -/
theorem child_index_after_zero (cs : List Subtree) (h : cs.length < 2 ^ 32) :
    child_index_after 0 cs = non_extra_count cs := by
  have hle := non_extra_count_le cs
  have hmod := child_index_after_count cs 0
  have hlt : child_index_after 0 cs < 2 ^ 32 := child_index_after_lt cs 0 (by norm_num)
  rw [Nat.mod_eq_of_lt hlt, Nat.zero_add, Nat.mod_eq_of_lt (by omega)] at hmod
  exact hmod

theorem build_children_nil (language : TSLanguage) (include_all pre_count : Bool)
    (aseq : Option (Nat → Nat)) (st : PState) (pos : Length) (ci : Nat) :
    ts_ptree_build_children language include_all pre_count aseq [] st pos ci = some st := by
  simp only [ts_ptree_build_children]

theorem entries_children_nil (language : TSLanguage) (include_all : Bool)
    (aseq : Option (Nat → Nat)) (pos : Length) (ci : Nat) :
    entries_children language include_all aseq [] pos ci = [] := by
  simp only [entries_children]

/-- The loop over `a ++ b` is the loop over `a` followed by the loop over `b`
with the loop variables `a` leaves behind. -/
theorem build_children_append (language : TSLanguage) (include_all pre_count : Bool)
    (aseq : Option (Nat → Nat)) (a b : List Subtree) :
    ∀ (st : PState) (pos : Length) (ci : Nat),
      ts_ptree_build_children language include_all pre_count aseq (a ++ b) st pos ci =
        (ts_ptree_build_children language include_all pre_count aseq a st pos ci).bind fun st1 =>
          ts_ptree_build_children language include_all pre_count aseq b st1 (pos_after pos a)
            (child_index_after ci a) := by
  induction a with
  | nil =>
    intro st pos ci
    simp only [List.nil_append, build_children_nil, Option.some_bind, pos_after,
      child_index_after]
  | cons c cs ih =>
    intro st pos ci
    rw [List.cons_append, build_children_cons, build_children_cons]
    cases h : ts_ptree_build__ language include_all pre_count c st pos false
        (if ts_subtree_extra c then 0 else child_alias_symbol aseq ci)
        (if ts_subtree_extra c then false
          else child_alias_is_named language (child_alias_symbol aseq ci)) with
    | none => rfl
    | some st1 =>
      simp only [Option.some_bind, ih, pos_after, child_index_after]

theorem entries_children_append (language : TSLanguage) (include_all : Bool)
    (aseq : Option (Nat → Nat)) (a b : List Subtree) :
    ∀ (pos : Length) (ci : Nat),
      entries_children language include_all aseq (a ++ b) pos ci =
        entries_children language include_all aseq a pos ci ++
          entries_children language include_all aseq b (pos_after pos a)
            (child_index_after ci a) := by
  induction a with
  | nil =>
    intro pos ci
    simp only [List.nil_append, entries_children_nil, pos_after, child_index_after]
  | cons c cs ih =>
    intro pos ci
    rw [List.cons_append, entries_children_cons, entries_children_cons, ih, List.append_assoc]
    simp only [pos_after, child_index_after]

/-- The call of `ts_ptree_build__` that the loop makes for the child `c` after
the children `pre`: the loop over `pre`, then the walk of `c` from the position
and with the alias of the ordinal that `pre` leaves behind, then the loop over
the remaining children. -/
theorem build_children_at (language : TSLanguage) (include_all pre_count : Bool)
    (aseq : Option (Nat → Nat)) (pre : List Subtree) (c : Subtree) (post : List Subtree)
    (st : PState) (pos : Length) (ci : Nat) :
    ts_ptree_build_children language include_all pre_count aseq (pre ++ c :: post) st pos ci =
      (ts_ptree_build_children language include_all pre_count aseq pre st pos ci).bind fun st1 =>
        (ts_ptree_build__ language include_all pre_count c st1 (pos_after pos pre) false
          (if ts_subtree_extra c then 0
            else child_alias_symbol aseq (child_index_after ci pre))
          (if ts_subtree_extra c then false
            else child_alias_is_named language
              (child_alias_symbol aseq (child_index_after ci pre)))).bind fun st2 =>
          ts_ptree_build_children language include_all pre_count aseq post st2
            (pos_after pos (pre ++ [c])) (child_index_after ci (pre ++ [c])) := by
  rw [build_children_append, pos_after_append, child_index_after_append]
  simp only [build_children_cons, pos_after, child_index_after]

theorem entries_children_at (language : TSLanguage) (include_all : Bool)
    (aseq : Option (Nat → Nat)) (pre : List Subtree) (c : Subtree) (post : List Subtree)
    (pos : Length) (ci : Nat) :
    entries_children language include_all aseq (pre ++ c :: post) pos ci =
      entries_children language include_all aseq pre pos ci ++
        (entries language include_all c (pos_after pos pre) false
          (if ts_subtree_extra c then 0
            else child_alias_symbol aseq (child_index_after ci pre))
          (if ts_subtree_extra c then false
            else child_alias_is_named language
              (child_alias_symbol aseq (child_index_after ci pre))) ++
          entries_children language include_all aseq post (pos_after pos (pre ++ [c]))
            (child_index_after ci (pre ++ [c]))) := by
  rw [entries_children_append, pos_after_append, child_index_after_append]
  simp only [entries_children_cons, pos_after, child_index_after]

/-- The walk of a node with a non-sentinel symbol, with the call for one of
its children singled out. -/
theorem build_node_at (language : TSLanguage) (include_all pre_count : Bool) (d : SubtreeData)
    (pre : List Subtree) (c : Subtree) (post : List Subtree) (st : PState) (p : Length)
    (is_root : Bool) (a : Nat) (an : Bool)
    (hsym : effective_symbol d a ≠ language.sym_end) :
    ts_ptree_build__ language include_all pre_count (.node d (pre ++ c :: post)) st p is_root a
        an =
      (emit_own d (node_flags d (pre ++ c :: post).length is_root include_all an)
        (effective_symbol d a) p pre_count st).bind fun st0 =>
        (ts_ptree_build_children language include_all pre_count
          (language.alias_sequence d.alias_sequence_id) pre st0 p 0).bind fun st1 =>
          (ts_ptree_build__ language include_all pre_count c st1 (pos_after p pre) false
            (if ts_subtree_extra c then 0
              else child_alias_symbol (language.alias_sequence d.alias_sequence_id)
                (child_index_after 0 pre))
            (if ts_subtree_extra c then false
              else child_alias_is_named language
                (child_alias_symbol (language.alias_sequence d.alias_sequence_id)
                  (child_index_after 0 pre)))).bind fun st2 =>
            (ts_ptree_build_children language include_all pre_count
              (language.alias_sequence d.alias_sequence_id) post st2
              (pos_after p (pre ++ [c])) (child_index_after 0 (pre ++ [c]))).bind fun st3 =>
              emit_end (node_flags d (pre ++ c :: post).length is_root include_all an)
                (effective_symbol d a) st.index pre_count st3 := by
  rw [build_node_eq]
  have hs : (effective_symbol d a == language.sym_end) = false := by simpa using hsym
  simp only [hs, Bool.false_eq_true, if_false, build_children_at, Option.bind_assoc]

/-- A word stored for a node that is no rule node is in the array at the
node's cursor position once the writing pass has walked the node. -/
theorem own_entry_stored (language : TSLanguage) (include_all : Bool) (d : SubtreeData)
    (cs : List Subtree) (st : PState) (start_pos : Length) (is_root : Bool) (a : Nat) (an : Bool)
    (hsym : effective_symbol d a ≠ language.sym_end)
    (hroom : st.index + counted language include_all (.node d cs) start_pos is_root a an ≤
      st.root_node.length) :
    ∃ st',
      ts_ptree_build__ language include_all false (.node d cs) st start_pos is_root a an =
        some st' ∧
      ∀ w, own_entry d (node_flags d cs.length is_root include_all an) (effective_symbol d a)
          start_pos = some w →
        (node_flags d cs.length is_root include_all an).is_rule_node = false →
        st'.root_node.get? st.index = some w := by
  obtain ⟨wl, h, _, _⟩ := build_write_at language include_all _ st start_pos is_root a an hroom
  rw [counted_eq] at hroom
  have hs : (effective_symbol d a == language.sym_end) = false := by simpa using hsym
  refine ⟨_, h, ?_⟩
  intro w hw hr
  rw [entries_node_eq] at hroom ⊢
  simp only [hs, hr, Bool.false_eq_true, if_false, hw, Option.toList_some,
    List.singleton_append, List.length_cons, List.cons_append] at hroom ⊢
  exact get_at_cursor _ _ _ _ (by omega)

/-- The offset and length fields of a token or error word stored for a node
walked from `q`. -/
theorem own_entry_fields (d : SubtreeData) (f : NodeFlags) (symbol : Nat) (q : Length) (w : Nat)
    (hw : own_entry d f symbol q = some w) (hk : kind_tag w = 0 ∨ kind_tag w = 3) :
    f.is_rule_node = false ∧
    start_offset_field w = (q.bytes + d.padding.bytes) % 2 ^ 24 ∧
    (kind_tag w = 0 → symbol_field w = symbol % 256 ∧
      byte_length_field w = d.size.bytes % 2 ^ 24) := by
  unfold own_entry at hw
  simp only [] at hw
  generalize (if d.size.bytes == 0 then 1 else d.size.bytes) = len at hw
  obtain ⟨v, tok, rule, ux, err, miss⟩ := f
  cases rule <;> cases tok <;> cases ux <;> cases miss <;> cases err <;>
    simp only [Bool.false_eq_true, if_false, if_true, Option.some.injEq, reduceCtorEq] at hw <;>
    subst hw <;>
    first
    | (rw [kind_tag_start_unpatched] at hk; omega)
    | (refine ⟨rfl, ?_, ?_⟩
       · rw [start_offset_field_token]; omega
       · intro _; rw [symbol_field_token, byte_length_field_token]; exact ⟨rfl, rfl⟩)
    | (refine ⟨rfl, ?_, ?_⟩
       · rw [start_offset_field_error]; omega
       · intro h0; rw [kind_tag_error] at h0; omega)

/-! ## Byte-position threading (C16) -/

/-- C16 (byte-position threading): a node with non-sentinel symbol walked from
start position `p` walks the child that follows the children `pre` (extra or
not) from the position `pos_after p pre`, whatever the earlier children did to
the state; that position is `p` plus the sum of padding and byte size of the
children in `pre`, as a `uint32_t` sum (exactly that sum when it does not
overflow); and a token or error word stored for any node walked from a
position `q` is in the array at the node's cursor position, with start-offset
field `(q + padding) mod 2^24` and, for a token, byte-length field
`size mod 2^24`. -/
theorem byte_position_threading (language : TSLanguage) (include_all pre_count : Bool)
    (d : SubtreeData) (pre : List Subtree) (c : Subtree) (post : List Subtree) (st : PState)
    (p : Length) (is_root : Bool) (a : Nat) (an : Bool)
    (hsym : effective_symbol d a ≠ language.sym_end) :
    ts_ptree_build__ language include_all pre_count (.node d (pre ++ c :: post)) st p is_root a
        an =
      ((emit_own d (node_flags d (pre ++ c :: post).length is_root include_all an)
        (effective_symbol d a) p pre_count st).bind fun st0 =>
        (ts_ptree_build_children language include_all pre_count
          (language.alias_sequence d.alias_sequence_id) pre st0 p 0).bind fun st1 =>
          (ts_ptree_build__ language include_all pre_count c st1 (pos_after p pre) false
            (if ts_subtree_extra c then 0
              else child_alias_symbol (language.alias_sequence d.alias_sequence_id)
                (child_index_after 0 pre))
            (if ts_subtree_extra c then false
              else child_alias_is_named language
                (child_alias_symbol (language.alias_sequence d.alias_sequence_id)
                  (child_index_after 0 pre)))).bind fun st2 =>
            (ts_ptree_build_children language include_all pre_count
              (language.alias_sequence d.alias_sequence_id) post st2
              (pos_after p (pre ++ [c])) (child_index_after 0 (pre ++ [c]))).bind fun st3 =>
              emit_end (node_flags d (pre ++ c :: post).length is_root include_all an)
                (effective_symbol d a) st.index pre_count st3) ∧
    (pos_after p pre).bytes % 2 ^ 32 = (p.bytes + children_bytes pre) % 2 ^ 32 ∧
    (p.bytes + children_bytes pre < 2 ^ 32 →
      (pos_after p pre).bytes = p.bytes + children_bytes pre) ∧
    (∀ (d2 : SubtreeData) (cs2 : List Subtree) (s2 : PState) (q : Length) (r2 : Bool) (a2 : Nat)
        (n2 : Bool), effective_symbol d2 a2 ≠ language.sym_end →
      s2.index + counted language include_all (.node d2 cs2) q r2 a2 n2 ≤ s2.root_node.length →
      ∃ st',
        ts_ptree_build__ language include_all false (.node d2 cs2) s2 q r2 a2 n2 = some st' ∧
        ∀ w, own_entry d2 (node_flags d2 cs2.length r2 include_all n2) (effective_symbol d2 a2)
            q = some w → kind_tag w = 0 ∨ kind_tag w = 3 →
          st'.root_node.get? s2.index = some w ∧
          start_offset_field w = (q.bytes + d2.padding.bytes) % 2 ^ 24 ∧
          (kind_tag w = 0 → byte_length_field w = d2.size.bytes % 2 ^ 24)) := by
  refine ⟨build_node_at language include_all pre_count d pre c post st p is_root a an hsym,
    pos_after_bytes pre p, pos_after_bytes_exact pre p, ?_⟩
  intro d2 cs2 s2 q r2 a2 n2 hsym2 hroom
  obtain ⟨st', h, hst⟩ := own_entry_stored language include_all d2 cs2 s2 q r2 a2 n2 hsym2 hroom
  refine ⟨st', h, ?_⟩
  intro w hw hk
  obtain ⟨hr, ho, hl⟩ := own_entry_fields d2 _ _ q w hw hk
  exact ⟨hst w hw hr, ho, fun h0 => (hl h0).2⟩

/-- Witness for `byte_position_threading`: the third child of a rule node,
after a token with one byte of padding and an invisible two-byte leaf, is
walked from byte 4. -/
theorem byte_position_threading_witness :
    effective_symbol ⟨1, ⟨0⟩, ⟨5⟩, true, true, false, false, false, 0⟩ 0 ≠
      plain_language.sym_end ∧
    (0 : Nat) + children_bytes [plain_leaf 2 1 1 true true, plain_leaf 3 0 2 true false] <
      2 ^ 32 ∧
    (pos_after ⟨0⟩ [plain_leaf 2 1 1 true true, plain_leaf 3 0 2 true false]).bytes =
      0 + children_bytes [plain_leaf 2 1 1 true true, plain_leaf 3 0 2 true false] ∧
    children_bytes [plain_leaf 2 1 1 true true, plain_leaf 3 0 2 true false] = 4 :=
  ⟨by decide, by decide,
    (byte_position_threading plain_language false false
      ⟨1, ⟨0⟩, ⟨5⟩, true, true, false, false, false, 0⟩
      [plain_leaf 2 1 1 true true, plain_leaf 3 0 2 true false] (plain_leaf 2 0 1 true true) []
      ⟨[0, 0, 0, 0], 0, []⟩ ⟨0⟩ true 0 false (by decide)).2.2.1 (by decide), by decide⟩

/-! ## Alias lookup by non-extra ordinal (C17) -/

/-- An extra child does not advance the ordinal. -/
theorem child_index_after_insert_extra (pre1 pre2 : List Subtree) (x : Subtree) (ci : Nat)
    (hx : ts_subtree_extra x = true) :
    child_index_after ci (pre1 ++ x :: pre2) = child_index_after ci (pre1 ++ pre2) := by
  rw [child_index_after_append, child_index_after_append]
  simp only [child_index_after, hx, if_true]

/-- C17 (alias lookup by non-extra ordinal): in the loop over the children of
a parent with alias sequence `aseq`, the child `c` that follows the children
`pre` is walked with `alias_symbol = 0`, `alias_is_named = false` when it is
extra, and otherwise with `alias_symbol = A[k]` and `alias_is_named` the named
flag of `A[k]` (false when `A[k] = 0`), where `k` is the number of non-extra
children in `pre`; without an alias sequence the alias is 0; and inserting or
removing an extra child before `c` changes neither `k` nor the call made for
`c`'s alias. -/
theorem alias_by_ordinal (language : TSLanguage) (include_all pre_count : Bool)
    (aseq : Option (Nat → Nat)) (pre : List Subtree) (c : Subtree) (post : List Subtree)
    (st : PState) (pos : Length) :
    ts_ptree_build_children language include_all pre_count aseq (pre ++ c :: post) st pos 0 =
      ((ts_ptree_build_children language include_all pre_count aseq pre st pos 0).bind fun st1 =>
        (ts_ptree_build__ language include_all pre_count c st1 (pos_after pos pre) false
          (if ts_subtree_extra c then 0
            else child_alias_symbol aseq (child_index_after 0 pre))
          (if ts_subtree_extra c then false
            else child_alias_is_named language
              (child_alias_symbol aseq (child_index_after 0 pre)))).bind fun st2 =>
          ts_ptree_build_children language include_all pre_count aseq post st2
            (pos_after pos (pre ++ [c])) (child_index_after 0 (pre ++ [c]))) ∧
    (pre.length < 2 ^ 32 → child_index_after 0 pre = non_extra_count pre) ∧
    (∀ (A : Nat → Nat) (k : Nat), child_alias_symbol (some A) k = A k) ∧
    (∀ k, child_alias_symbol none k = 0) ∧
    child_alias_is_named language 0 = false ∧
    (∀ s, s ≠ 0 → child_alias_is_named language s = language.symbol_named s) ∧
    (∀ (pre1 pre2 : List Subtree) (x : Subtree), ts_subtree_extra x = true →
      non_extra_count (pre1 ++ x :: pre2) = non_extra_count (pre1 ++ pre2) ∧
      child_alias_symbol aseq (child_index_after 0 (pre1 ++ x :: pre2)) =
        child_alias_symbol aseq (child_index_after 0 (pre1 ++ pre2))) := by
  refine ⟨build_children_at language include_all pre_count aseq pre c post st pos 0,
    child_index_after_zero pre, fun _ _ => rfl, fun _ => rfl, rfl, ?_, ?_⟩
  · intro s hs
    simp [child_alias_is_named, hs]
  · intro pre1 pre2 x hx
    constructor
    · rw [non_extra_count_append, non_extra_count_append]
      simp [non_extra_count, hx]
    · rw [child_index_after_insert_extra pre1 pre2 x 0 hx]

/-- Witness for `alias_by_ordinal`: with one extra child and one non-extra
child before it, a child is at ordinal 1; the extra child does not count. -/
theorem alias_by_ordinal_witness :
    [Subtree.node ⟨4, ⟨0⟩, ⟨1⟩, true, true, true, false, false, 0⟩ [],
      plain_leaf 2 0 1 true true].length < 2 ^ 32 ∧
    child_index_after 0 [Subtree.node ⟨4, ⟨0⟩, ⟨1⟩, true, true, true, false, false, 0⟩ [],
      plain_leaf 2 0 1 true true] =
      non_extra_count [Subtree.node ⟨4, ⟨0⟩, ⟨1⟩, true, true, true, false, false, 0⟩ [],
        plain_leaf 2 0 1 true true] ∧
    non_extra_count [Subtree.node ⟨4, ⟨0⟩, ⟨1⟩, true, true, true, false, false, 0⟩ [],
      plain_leaf 2 0 1 true true] = 1 :=
  ⟨by decide,
    (alias_by_ordinal plain_language false false none
      [Subtree.node ⟨4, ⟨0⟩, ⟨1⟩, true, true, true, false, false, 0⟩ [],
        plain_leaf 2 0 1 true true] (plain_leaf 3 0 1 true true) [] ⟨[], 0, []⟩ ⟨0⟩).2.1
      (by decide), by decide⟩

/-! ## The missing-token scenario (C11) -/

/-- The entries of a missing leaf of byte size 0. -/
theorem entries_missing_leaf (language : TSLanguage) (include_all : Bool) (d : SubtreeData)
    (q : Length) (is_root : Bool) (a : Nat) (an : Bool)
    (hmiss : d.is_missing = true) (hsize : d.size.bytes = 0)
    (hsym : effective_symbol d a ≠ language.sym_end) :
    entries language include_all (.node d []) q is_root a an =
      [PNODE_ERROR ((q.bytes + d.padding.bytes) % 2 ^ 32) PNODE_ERROR_MISSING 1] := by
  rw [entries_node_eq]
  have hs : (effective_symbol d a == language.sym_end) = false := by simpa using hsym
  simp only [hs, Bool.false_eq_true, if_false]
  simp [node_flags, own_entry, hmiss, hsize, entries_children]

/-- C11 as stated fails: in `missing_leaf_tree` the missing leaf follows a
one-byte token that starts at byte 0, so the byte offset following the
preceding sibling is 1, but the leaf has two bytes of padding and the
start-offset field of its entry is 3. -/
theorem missing_offset_fails :
    ∃ p, ts_ptree_build missing_leaf_tree false = some p ∧
      p.root_node = [PNODE_START_RULE_NODE_LENGTH (PNODE_START_RULE_NODE 1) 3,
        PNODE_TOKEN_NODE 0 2 1, PNODE_ERROR 3 PNODE_ERROR_MISSING 1, PNODE_END_RULE_NODE 1 3] ∧
      start_offset_field (p.root_node.getD 2 0) = 3 ∧
      (0 + children_bytes [plain_leaf 2 0 1 true true]) % 2 ^ 24 = 1 ∧
      start_offset_field (p.root_node.getD 2 0) ≠
        (0 + children_bytes [plain_leaf 2 0 1 true true]) % 2 ^ 24 := by
  refine ⟨_, build_eq _ false, by decide, by decide, by decide, by decide⟩

/-- C11 as amended: in the loop over the children of a parent walked from
`p`, a child that is a missing leaf of byte size 0 with non-sentinel effective
symbol contributes exactly one entry, an error word of subkind 1 with
byte-length field 1, between the slices of the children before and after it,
and its start-offset field is `p` plus the sum of padding and byte size of the
preceding children plus the leaf's own padding, mod `2^24`. -/
theorem missing_leaf_entry (language : TSLanguage) (include_all : Bool)
    (aseq : Option (Nat → Nat)) (pre : List Subtree) (d : SubtreeData) (post : List Subtree)
    (p : Length) (hmiss : d.is_missing = true) (hsize : d.size.bytes = 0)
    (hsym : effective_symbol d (if d.extra then 0
        else child_alias_symbol aseq (child_index_after 0 pre)) ≠ language.sym_end) :
    ∃ w,
      contributed language include_all (.node d []) (pos_after p pre) false
        (if d.extra then 0 else child_alias_symbol aseq (child_index_after 0 pre))
        (if d.extra then false
          else child_alias_is_named language
            (child_alias_symbol aseq (child_index_after 0 pre))) = [w] ∧
      contributed_children language include_all aseq (pre ++ .node d [] :: post) p 0 =
        contributed_children language include_all aseq pre p 0 ++
          (w :: contributed_children language include_all aseq post
            (pos_after p (pre ++ [.node d []])) (child_index_after 0 (pre ++ [.node d []]))) ∧
      kind_tag w = PNODE_ERROR_NODE_TYPE ∧ symbol_field w = PNODE_ERROR_MISSING ∧
      byte_length_field w = 1 ∧
      start_offset_field w = (p.bytes + children_bytes pre + d.padding.bytes) % 2 ^ 24 := by
  refine ⟨PNODE_ERROR (((pos_after p pre).bytes + d.padding.bytes) % 2 ^ 32)
    PNODE_ERROR_MISSING 1, ?_, ?_, kind_tag_error _ _ _, ?_, ?_, ?_⟩
  · rw [contributed_eq]
    exact entries_missing_leaf language include_all d _ false _ _ hmiss hsize hsym
  · simp only [contributed_children_eq]
    rw [entries_children_at]
    have hx : ts_subtree_extra (.node d []) = d.extra := rfl
    rw [hx, entries_missing_leaf language include_all d _ false _ _ hmiss hsize hsym]
    rfl
  · rw [symbol_field_error]; rfl
  · rw [byte_length_field_error]; norm_num
  · rw [start_offset_field_error]
    have := pos_after_bytes pre p
    omega

/-- Witness for `missing_leaf_entry`: the missing leaf of `missing_leaf_tree`. -/
theorem missing_leaf_entry_witness :
    (⟨7, ⟨2⟩, ⟨0⟩, true, false, false, true, false, 0⟩ : SubtreeData).is_missing = true ∧
    (⟨7, ⟨2⟩, ⟨0⟩, true, false, false, true, false, 0⟩ : SubtreeData).size.bytes = 0 ∧
    ∃ w,
      contributed plain_language false
        (.node ⟨7, ⟨2⟩, ⟨0⟩, true, false, false, true, false, 0⟩ [])
        (pos_after ⟨0⟩ [plain_leaf 2 0 1 true true]) false 0 false = [w] ∧
      start_offset_field w = (0 + children_bytes [plain_leaf 2 0 1 true true] + 2) % 2 ^ 24 := by
  refine ⟨rfl, rfl, ?_⟩
  obtain ⟨w, h1, _, _, _, _, h6⟩ := missing_leaf_entry plain_language false none
    [plain_leaf 2 0 1 true true] ⟨7, ⟨2⟩, ⟨0⟩, true, false, false, true, false, 0⟩ [] ⟨0⟩ rfl rfl
    (by decide)
  exact ⟨w, h1, h6⟩

/-! ## Pre-order with end markers (C15) -/

/-- The writing pass stores, from any state with room after the cursor, the
slice the subtree contributes. -/
theorem writes_contributed (language : TSLanguage) (include_all : Bool) (t : Subtree)
    (st : PState) (start_pos : Length) (is_root : Bool) (a : Nat) (an : Bool)
    (h : st.index + counted language include_all t start_pos is_root a an ≤
      st.root_node.length) :
    WritesTo (ts_ptree_build__ language include_all false t st start_pos is_root a an) st
      (st.root_node.take st.index) (st.root_node.drop st.index)
      (contributed language include_all t start_pos is_root a an) := by
  rw [contributed_eq]
  exact build_write_at language include_all t st start_pos is_root a an h

/-- C15 (pre-order with end markers): the slice a walked node contributes is
its own entry if it stores one (the rule start marker with its length patched
in, a token word or an error word), followed by the slices contributed by its
children in child order, followed by the rule end marker exactly when the node
is a rule node; a node pruned for the sentinel symbol contributes nothing and
walks no child.  In particular an error word is followed by the children's
slices and by no end marker.  The writing pass stores this slice contiguously
from the cursor of any state with room for it. -/
theorem preorder_with_end_markers (language : TSLanguage) (include_all : Bool)
    (d : SubtreeData) (cs : List Subtree) (start_pos : Length) (is_root : Bool) (a : Nat)
    (an : Bool) :
    contributed language include_all (.node d cs) start_pos is_root a an =
      (if effective_symbol d a == language.sym_end then []
      else if (node_flags d cs.length is_root include_all an).is_rule_node then
        PNODE_START_RULE_NODE_LENGTH (PNODE_START_RULE_NODE (effective_symbol d a))
            (((contributed_children language include_all
              (language.alias_sequence d.alias_sequence_id) cs start_pos 0).length + 1) %
              2 ^ 32) ::
          (contributed_children language include_all
              (language.alias_sequence d.alias_sequence_id) cs start_pos 0 ++
            [PNODE_END_RULE_NODE (effective_symbol d a)
              (((contributed_children language include_all
                (language.alias_sequence d.alias_sequence_id) cs start_pos 0).length + 1) %
                2 ^ 32)])
      else
        (own_entry d (node_flags d cs.length is_root include_all an) (effective_symbol d a)
          start_pos).toList ++
          contributed_children language include_all
            (language.alias_sequence d.alias_sequence_id) cs start_pos 0) ∧
    (∀ (aseq : Option (Nat → Nat)) (pos : Length) (ci : Nat),
      contributed_children language include_all aseq [] pos ci = []) ∧
    (∀ (aseq : Option (Nat → Nat)) (c : Subtree) (rest : List Subtree) (pos : Length)
        (ci : Nat),
      contributed_children language include_all aseq (c :: rest) pos ci =
        contributed language include_all c pos false
          (if ts_subtree_extra c then 0 else child_alias_symbol aseq ci)
          (if ts_subtree_extra c then false
            else child_alias_is_named language (child_alias_symbol aseq ci)) ++
          contributed_children language include_all aseq rest
            (length_add (length_add pos (ts_subtree_padding c)) (ts_subtree_size c))
            (if ts_subtree_extra c then ci else (ci + 1) % 2 ^ 32)) ∧
    (effective_symbol d a ≠ language.sym_end →
      ∀ w, own_entry d (node_flags d cs.length is_root include_all an) (effective_symbol d a)
          start_pos = some w → kind_tag w = PNODE_ERROR_NODE_TYPE →
        contributed language include_all (.node d cs) start_pos is_root a an =
          w :: contributed_children language include_all
            (language.alias_sequence d.alias_sequence_id) cs start_pos 0) ∧
    (∀ st : PState,
      st.index + counted language include_all (.node d cs) start_pos is_root a an ≤
        st.root_node.length →
      WritesTo
        (ts_ptree_build__ language include_all false (.node d cs) st start_pos is_root a an) st
        (st.root_node.take st.index) (st.root_node.drop st.index)
        (contributed language include_all (.node d cs) start_pos is_root a an)) := by
  refine ⟨?_, ?_, ?_, ?_, ?_⟩
  · rw [contributed_eq, contributed_children_eq, entries_node_eq]
  · intro aseq pos ci
    rw [contributed_children_eq, entries_children_nil]
  · intro aseq c rest pos ci
    rw [contributed_children_eq, contributed_children_eq, contributed_eq, entries_children_cons]
  · intro hsym w hw hk
    obtain ⟨hr, _⟩ := own_entry_error _ _ _ _ w hw hk
    have hs : (effective_symbol d a == language.sym_end) = false := by simpa using hsym
    rw [contributed_eq, contributed_children_eq, entries_node_eq]
    simp only [hs, hr, Bool.false_eq_true, if_false, hw, Option.toList_some,
      List.singleton_append]
  · intro st h
    exact writes_contributed language include_all _ st start_pos is_root a an h

/-- Witness for `preorder_with_end_markers`: a general-error node with one
token child contributes the error word followed by the token word. -/
theorem preorder_with_end_markers_witness :
    effective_symbol ⟨65535, ⟨1⟩, ⟨4⟩, true, true, false, false, true, 0⟩ 0 ≠
      plain_language.sym_end ∧
    contributed plain_language false
        (.node ⟨65535, ⟨1⟩, ⟨4⟩, true, true, false, false, true, 0⟩
          [plain_leaf 2 0 4 true true]) ⟨10⟩ false 0 false =
      PNODE_ERROR 11 PNODE_ERROR_GENERAL 4 ::
        contributed_children plain_language false none [plain_leaf 2 0 4 true true] ⟨10⟩ 0 ∧
    contributed_children plain_language false none [plain_leaf 2 0 4 true true] ⟨10⟩ 0 =
      [PNODE_TOKEN_NODE 10 2 4] :=
  ⟨by decide,
    (preorder_with_end_markers plain_language false
      ⟨65535, ⟨1⟩, ⟨4⟩, true, true, false, false, true, 0⟩ [plain_leaf 2 0 4 true true] ⟨10⟩
      false 0 false).2.2.2.1 (by decide) _ (by decide) (by decide), by decide⟩

/-! ## The effective symbol in the output (C18) -/

/-- The flags of a node that is visible and neither an error nor missing. -/
theorem node_flags_plain (d : SubtreeData) (n : Nat) (is_root include_all an : Bool)
    (hvis : (include_all || is_root || d.is_missing || (d.visible && d.named) || an) = true)
    (herr : d.is_error = false) (hmiss : d.is_missing = false) :
    node_flags d n is_root include_all an =
      ⟨true, n == 0, !(n == 0), false, false, false⟩ := by
  unfold node_flags
  rw [hmiss] at hvis
  simp only [hmiss, herr, hvis, if_true, Bool.false_and, Bool.false_eq_true, if_false]
  cases n with
  | zero => simp
  | succ k => simp

/-- C18 (effective symbol in the output): the effective symbol is the alias
supplied by the parent if it is nonzero and the node's own symbol otherwise; a
token word stored for a node carries the effective symbol mod 256 in its symbol
field, and so do both markers of a rule pair; and with `include_all = false` a
non-root child that is neither missing nor visible-and-named, walked with a
nonzero alias that is a named symbol (and not the sentinel), still contributes
an entry: when it is no error node, a token under the alias if it has no
children and a rule pair under the alias otherwise. -/
theorem effective_symbol_in_output (language : TSLanguage) (include_all : Bool)
    (d : SubtreeData) (cs : List Subtree) (start_pos : Length) (is_root : Bool) (a : Nat)
    (an : Bool) :
    effective_symbol d a = (if a ≠ 0 then a else d.symbol) ∧
    (∀ w, own_entry d (node_flags d cs.length is_root include_all an) (effective_symbol d a)
        start_pos = some w → kind_tag w = PNODE_TOKEN_NODE_TYPE →
      symbol_field w = effective_symbol d a % 256) ∧
    (effective_symbol d a ≠ language.sym_end →
      (node_flags d cs.length is_root include_all an).is_rule_node = true →
      ∃ w mid e, contributed language include_all (.node d cs) start_pos is_root a an =
          w :: (mid ++ [e]) ∧
        is_rule_start w = true ∧ is_rule_end e = true ∧
        rule_symbol_field w = effective_symbol d a % 256 ∧
        rule_symbol_field e = effective_symbol d a % 256) ∧
    (a ≠ 0 → a ≠ language.sym_end → language.symbol_named a = true →
      d.is_missing = false → (d.visible && d.named) = false →
      ∃ w rest,
        contributed language false (.node d cs) start_pos false a
          (child_alias_is_named language a) = w :: rest ∧
        (d.is_error = false → cs = [] →
          w = PNODE_TOKEN_NODE ((start_pos.bytes + d.padding.bytes) % 2 ^ 32) a d.size.bytes ∧
          kind_tag w = PNODE_TOKEN_NODE_TYPE ∧ symbol_field w = a % 256) ∧
        (d.is_error = false → cs ≠ [] →
          is_rule_start w = true ∧ rule_symbol_field w = a % 256) ∧
        (d.is_error = true → kind_tag w = PNODE_ERROR_NODE_TYPE)) := by
  refine ⟨?_, ?_, ?_, ?_⟩
  · unfold effective_symbol
    by_cases h : a = 0 <;> simp [h]
  · intro w hw hk
    exact ((own_entry_fields d _ _ start_pos w hw (Or.inl hk)).2.2 hk).1
  · intro hsym hr
    have hs : (effective_symbol d a == language.sym_end) = false := by simpa using hsym
    rw [contributed_eq, entries_node_eq]
    simp only [hs, hr, Bool.false_eq_true, if_false, if_true]
    exact ⟨_, _, _, rfl, is_rule_start_start _ _, is_rule_end_end _ _,
      rule_symbol_field_start _ _, rule_symbol_field_end _ _⟩
  · intro ha hne hnamed hmiss hvn
    have hE : effective_symbol d a = a := by simp [effective_symbol, ha]
    have hs : (a == language.sym_end) = false := by simpa using hne
    have han : child_alias_is_named language a = true := by
      simp [child_alias_is_named, ha, hnamed]
    rw [contributed_eq, entries_node_eq]
    simp only [hE, hs, Bool.false_eq_true, if_false, han]
    cases herr : d.is_error
    · rw [node_flags_plain d cs.length false false true (by simp) herr hmiss]
      cases cs with
      | nil =>
        refine ⟨PNODE_TOKEN_NODE ((start_pos.bytes + d.padding.bytes) % 2 ^ 32) a d.size.bytes,
          [], ?_, ?_, ?_, ?_⟩
        · simp [own_entry, entries_children]
        · intro _ _
          exact ⟨rfl, kind_tag_token _ _ _, symbol_field_token _ _ _⟩
        · intro _ h; exact absurd rfl h
        · intro h; cases h
      | cons c cs =>
        have hn : ((c :: cs).length == 0) = false := by simp
        simp only [hn, Bool.not_false, if_true]
        refine ⟨_, _, rfl, ?_, ?_, ?_⟩
        · intro _ h; cases h
        · intro _ _
          exact ⟨is_rule_start_start _ _, rule_symbol_field_start _ _⟩
        · intro h; cases h
    · obtain ⟨w, hw, hk⟩ := own_entry_of_error d cs.length false false true a start_pos
        (Or.inl herr)
      obtain ⟨hr, _⟩ := own_entry_error _ _ _ _ w hw hk
      simp only [hr, Bool.false_eq_true, if_false, hw, Option.toList_some,
        List.singleton_append]
      refine ⟨w, _, rfl, ?_, ?_, ?_⟩
      · intro h; cases h
      · intro h; cases h
      · intro _; exact hk

/-- Witness for `effective_symbol_in_output`: an anonymous leaf (symbol 3)
walked with the named alias 5 contributes a token under symbol 5. -/
theorem effective_symbol_in_output_witness :
    (5 ≠ 0 ∧ 5 ≠ alias_language.sym_end ∧ alias_language.symbol_named 5 = true) ∧
    ∃ w rest,
      contributed alias_language false (plain_leaf 3 0 1 true false) ⟨0⟩ false 5
        (child_alias_is_named alias_language 5) = w :: rest ∧
      w = PNODE_TOKEN_NODE 0 5 1 ∧ symbol_field w = 5 % 256 := by
  refine ⟨⟨by decide, by decide, by decide⟩, ?_⟩
  obtain ⟨w, rest, h, ht, _, _⟩ := (effective_symbol_in_output alias_language false
    ⟨3, ⟨0⟩, ⟨1⟩, true, false, false, false, false, 0⟩ [] ⟨0⟩ false 5
    (child_alias_is_named alias_language 5)).2.2.2 (by decide) (by decide) (by decide) rfl rfl
  obtain ⟨h1, _, h3⟩ := ht rfl rfl
  exact ⟨w, rest, h, h1, h3⟩

/-! ## Balanced rule markers (C19) -/

theorem word_match_extend (a b : List Nat) (i j : Nat) (h : word_match a i j) :
    word_match (a ++ b) i j := by
  obtain ⟨⟨hij, hj, hs, he, hb⟩, h1⟩ := h
  have hi : i < a.length := by omega
  refine ⟨⟨hij, by simp; omega, ?_, ?_, ?_⟩, ?_⟩
  · rwa [List.getD_append _ _ _ _ hi]
  · rwa [List.getD_append _ _ _ _ hj]
  · unfold balanced; rw [between_append_left a b i j hij hj]; exact hb
  · rwa [List.getD_append _ _ _ _ hi, List.getD_append _ _ _ _ hj]

theorem word_match_shift (pre l : List Nat) (i j : Nat) (h : word_match l i j) :
    word_match (pre ++ l) (pre.length + i) (pre.length + j) := by
  obtain ⟨⟨hij, hj, hs, he, hb⟩, h1⟩ := h
  refine ⟨⟨by omega, by simp; omega, ?_, ?_, ?_⟩, ?_⟩
  · rwa [getD_append_shift]
  · rwa [getD_append_shift]
  · unfold balanced; rw [between_append_right]; exact hb
  · rw [getD_append_shift, getD_append_shift]; exact h1

theorem end_eq_start_add (s n : Nat) :
    PNODE_END_RULE_NODE s n =
      PNODE_START_RULE_NODE_LENGTH (PNODE_START_RULE_NODE s) n + 2 ^ 3 := by
  rw [end_rule_eq, start_rule_length_eq]; omega

/-- In a `PackedForest` every start marker has a matching end marker whose
word is the word of the start marker with bit 3 set. -/
theorem forest_word {l : List Nat} (h : PackedForest l) :
    ∀ i, i < l.length → is_rule_start (l.getD i 0) = true → ∃ j, word_match l i j := by
  induction h with
  | nil => intro i hi; simp at hi
  | leaf w rest h1 h2 _ ih =>
    intro i hi hs
    cases i with
    | zero => simp [h1] at hs
    | succ k =>
      obtain ⟨j, hj⟩ := ih k (by simpa using hi) (by simpa using hs)
      refine ⟨1 + j, ?_⟩
      have := word_match_shift [w] rest k j hj
      simpa [Nat.add_comm] using this
  | rule s n cs rest hcs _ hn ihcs ihrest =>
    intro i hi hs
    rcases Nat.lt_trichotomy i (cs.length + 1) with hlt | heq | hgt
    · cases i with
      | zero =>
        refine ⟨cs.length + 1, ⟨by omega, by simp, by simpa using hs, ?_, ?_⟩, ?_⟩
        · rw [List.getD_cons_succ, List.getD_append_right _ _ _ _ (by omega)]
          simp [is_rule_end_end]
        · unfold balanced between
          simp only [List.drop_succ_cons, List.drop_zero, Nat.sub_zero, Nat.add_sub_cancel,
            List.take_left]
          exact forest_depth hcs 0
        · rw [List.getD_cons_succ, List.getD_append_right _ _ _ _ (by omega)]
          simp only [Nat.sub_self, List.getD_cons_zero]
          exact end_eq_start_add s n
      | succ k =>
        have hk : k < cs.length := by omega
        have hs' : is_rule_start (cs.getD k 0) = true := by
          rw [List.getD_cons_succ, List.getD_append _ _ _ _ hk] at hs
          exact hs
        obtain ⟨j, hj⟩ := ihcs k hk hs'
        have h1 := word_match_extend cs (PNODE_END_RULE_NODE s n :: rest) k j hj
        have h2 := word_match_shift
          [PNODE_START_RULE_NODE_LENGTH (PNODE_START_RULE_NODE s) n] _ k j h1
        exact ⟨1 + j, by simpa [Nat.add_comm] using h2⟩
    · subst heq
      rw [List.getD_cons_succ, List.getD_append_right _ _ _ _ (by omega)] at hs
      simp [is_rule_start_end] at hs
    · obtain ⟨k, rfl⟩ : ∃ k, i = (cs.length + 2) + k := ⟨i - (cs.length + 2), by omega⟩
      have hl : PNODE_START_RULE_NODE_LENGTH (PNODE_START_RULE_NODE s) n ::
          (cs ++ PNODE_END_RULE_NODE s n :: rest) =
          (PNODE_START_RULE_NODE_LENGTH (PNODE_START_RULE_NODE s) n ::
            (cs ++ [PNODE_END_RULE_NODE s n])) ++ rest := by simp
      have hlen : (PNODE_START_RULE_NODE_LENGTH (PNODE_START_RULE_NODE s) n ::
            (cs ++ [PNODE_END_RULE_NODE s n])).length = cs.length + 2 := by simp
      rw [hl] at hi hs ⊢
      rw [← hlen] at hi hs ⊢
      rw [getD_append_shift] at hs
      simp only [List.length_append] at hi
      obtain ⟨j, hj⟩ := ihrest k (by omega) hs
      exact ⟨_, word_match_shift _ rest k j hj⟩

/-- What a nesting depth read by `marker_depth` says about the numbers of
start and end markers: no prefix has more end markers than the initial depth
plus its start markers, and the final depth is the balance. -/
theorem marker_depth_counts (l : List Nat) :
    ∀ depth final, marker_depth l depth = some final →
      final + l.countP is_rule_end = depth + l.countP is_rule_start ∧
      ∀ k, (l.take k).countP is_rule_end ≤ depth + (l.take k).countP is_rule_start := by
  induction l with
  | nil =>
    intro depth final h
    simp only [marker_depth, Option.some.injEq] at h
    simp [h]
  | cons w ws ih =>
    intro depth final h
    simp only [marker_depth] at h
    cases hs : is_rule_start w
    · cases he : is_rule_end w
      · simp only [hs, he, Bool.false_eq_true, if_false] at h
        obtain ⟨h1, h2⟩ := ih depth final h
        refine ⟨by simp [List.countP_cons, hs, he]; exact h1, ?_⟩
        intro k
        cases k with
        | zero => simp
        | succ k => simpa [List.countP_cons, hs, he] using h2 k
      · simp only [hs, he, Bool.false_eq_true, if_false, if_true] at h
        cases depth with
        | zero => simp at h
        | succ m =>
          simp only at h
          obtain ⟨h1, h2⟩ := ih m final h
          refine ⟨by simp [List.countP_cons, hs, he]; omega, ?_⟩
          intro k
          cases k with
          | zero => simp
          | succ k =>
            have := h2 k
            simp [List.countP_cons, hs, he]
            omega
    · have he := not_start_and_end w hs
      simp only [hs, if_true] at h
      obtain ⟨h1, h2⟩ := ih (depth + 1) final h
      refine ⟨by simp [List.countP_cons, hs, he]; omega, ?_⟩
      intro k
      cases k with
      | zero => simp
      | succ k =>
        have := h2 k
        simp [List.countP_cons, hs, he]
        omega

/-- Setting bit 3 of a word whose bit 3 is clear changes neither the symbol
field nor the span-length field of a rule marker. -/
theorem set_end_bit_fields (w : Nat) (h : rule_end_bit w = 0) :
    rule_end_bit (w + 2 ^ 3) = 1 ∧ rule_symbol_field w = rule_symbol_field (w + 2 ^ 3) ∧
      span_length_field w = span_length_field (w + 2 ^ 3) := by
  unfold rule_end_bit at h ⊢
  unfold rule_symbol_field span_length_field
  refine ⟨?_, ?_, ?_⟩ <;> omega

/-- C19 (balanced rule markers): in the array built for any tree and
`include_all` value no prefix holds more rule end markers than rule start
markers and the totals are equal; every start marker has exactly one matching
end marker (the markers between them being balanced); and the word of the start
marker is the word of that end marker with bit 3 cleared, so both carry the
same 8-bit symbol and the same span-length field. -/
theorem balanced_rule_markers (tree : TSTree) (include_all : Bool) :
    ∃ p, ts_ptree_build tree include_all = some p ∧
      balanced p.root_node ∧
      (∀ k, (p.root_node.take k).countP is_rule_end ≤
        (p.root_node.take k).countP is_rule_start) ∧
      p.root_node.countP is_rule_end = p.root_node.countP is_rule_start ∧
      ∀ i, i < p.root_node.length → is_rule_start (p.root_node.getD i 0) = true →
        ∃ j, matching_end p.root_node i j ∧ (∀ k, matching_end p.root_node i k → k = j) ∧
          p.root_node.getD j 0 = p.root_node.getD i 0 + 2 ^ 3 ∧
          rule_end_bit (p.root_node.getD i 0) = 0 ∧
          rule_end_bit (p.root_node.getD j 0) = 1 ∧
          rule_symbol_field (p.root_node.getD i 0) = rule_symbol_field (p.root_node.getD j 0) ∧
          span_length_field (p.root_node.getD i 0) =
            span_length_field (p.root_node.getD j 0) := by
  have hf := (entries_forest tree.language include_all).1 tree.root length_zero true 0 false
  have hd := forest_depth hf 0
  obtain ⟨hc1, hc2⟩ := marker_depth_counts _ 0 0 hd
  refine ⟨_, build_eq tree include_all, hd, ?_, ?_, ?_⟩
  · intro k; simpa using hc2 k
  · simpa using hc1
  · intro i hi hs
    obtain ⟨j, hm, hw⟩ := forest_word hf i hi hs
    have hbit : rule_end_bit
        ((entries tree.language include_all tree.root length_zero true 0 false).getD i 0) =
        0 := by
      simp only [is_rule_start, PNODE_START, Bool.and_eq_true, beq_iff_eq] at hs
      exact hs.2
    obtain ⟨h1, h2, h3⟩ := set_end_bit_fields _ hbit
    rw [← hw] at h1 h2 h3
    exact ⟨j, hm, fun k hk => matching_end_unique _ i j k hm hk, hw, hbit, h1, h2, h3⟩

/-! ## The span length is the marker distance in 8 bits (C20) -/

/-- In the entries of any subtree, the span-length field of a matching pair of
rule markers is their distance mod 256. -/
theorem forest_pair_distance {l : List Nat} (h : PackedForest l) (i j : Nat)
    (hm : matching_end l i j) :
    span_length_field (l.getD i 0) = (j - i) % 256 ∧
      span_length_field (l.getD j 0) = (j - i) % 256 := by
  have hi : i < l.length := by
    have := hm.1; have := hm.2.1; omega
  obtain ⟨j', hm', h1, h2⟩ := forest_span h i hi hm.2.2.1
  have := matching_end_unique l i j' j hm' hm
  subst this
  exact ⟨h1, h2⟩

/-- C20 (span length is the marker distance in 8 bits): for every rule pair in
the array built for any tree and `include_all` value, with the start marker at
`i` and its matching end marker at `j`, the span-length field (bits 12..19) of
both markers is `(j - i) mod 256`, the cursor difference taken before the end
marker is counted; so when the markers are 256 or more slots apart the field
is not their distance.  The rule node with 255 token children is such a pair:
its markers are at 0 and 256 and both fields are 0. -/
theorem span_length_is_distance (tree : TSTree) (include_all : Bool) :
    (∃ p, ts_ptree_build tree include_all = some p ∧
      ∀ i j, matching_end p.root_node i j →
        span_length_field (p.root_node.getD i 0) = (j - i) % 256 ∧
        span_length_field (p.root_node.getD j 0) = (j - i) % 256 ∧
        (256 ≤ j - i → span_length_field (p.root_node.getD i 0) ≠ j - i ∧
          span_length_field (p.root_node.getD j 0) ≠ j - i)) ∧
    (∃ q, ts_ptree_build wide_tree false = some q ∧ q.length = 257 ∧
      matching_end q.root_node 0 256 ∧
      span_length_field (q.root_node.getD 0 0) = 0 ∧
      span_length_field (q.root_node.getD 256 0) = 0) := by
  constructor
  · have hf := (entries_forest tree.language include_all).1 tree.root length_zero true 0 false
    refine ⟨_, build_eq tree include_all, ?_⟩
    intro i j hm
    obtain ⟨h1, h2⟩ := forest_pair_distance hf i j hm
    refine ⟨h1, h2, ?_⟩
    intro hbig
    have hlt : (j - i) % 256 < 256 := Nat.mod_lt _ (by norm_num)
    constructor
    · intro h; rw [h] at h1; omega
    · intro h; rw [h] at h2; omega
  · have hf := (entries_forest wide_tree.language false).1 wide_tree.root length_zero true 0
      false
    obtain ⟨cs, hlen, harr⟩ := wide_tree_entries
    rw [harr] at hf
    have hb := build_eq wide_tree false
    rw [harr] at hb
    have hstart : is_rule_start
        ((PNODE_START_RULE_NODE_LENGTH (PNODE_START_RULE_NODE 1) 256 ::
          (cs ++ [PNODE_END_RULE_NODE 1 256])).getD 0 0) = true := by
      rw [List.getD_cons_zero, is_rule_start_start]
    have hfield : span_length_field
        ((PNODE_START_RULE_NODE_LENGTH (PNODE_START_RULE_NODE 1) 256 ::
          (cs ++ [PNODE_END_RULE_NODE 1 256])).getD 0 0) = 0 := by
      rw [List.getD_cons_zero, span_length_field_start]
    obtain ⟨j, hm, h1, h2⟩ := forest_span hf 0 (by simp) hstart
    have hj : j = 256 := by
      have hjl := hm.2.1
      have h0 := hm.1
      simp only [List.length_cons, List.length_append, List.length_nil, hlen] at hjl
      rw [hfield] at h1
      omega
    subst hj
    refine ⟨_, hb, ?_, hm, hfield, ?_⟩
    · simp [hlen]
    · rw [h2]

end PTreeModel
